import Mathlib

/-!
Verification of the flux-state statechart core against its specification.

The TypeScript core is shallowly embedded: every function below is a direct
transcription of the corresponding function in `src/lib/code-format.ts`,
`src/lib/ids.ts`, the XState interchange module, and `src/examples/machines.ts`.
JavaScript `Map`/object lookups become association-list operations with the
same insertion/overwrite semantics, JS string truthiness (`""` is falsy) is
modelled explicitly, and the two unbounded loops in the source — the
`while (current)` walk of `getAncestors` and the recursive descent of the
exporter — are given an explicit fuel parameter, with `none` meaning the
original loop does not terminate.  `enterNode` is also written with fuel, and
its fuel-independence beyond an explicit bound is proved, which is the
termination argument the source relies on (the `seen` set).

JSON serialization is not modelled: `exportMachineAsXState` is embedded as the
builder of the interchange tree it stringifies, and `importMachineFromXState`
takes the parsed tree (`none` standing for a string `JSON.parse` rejects).
The host JavaScript expression evaluator used for guards is modelled from the
spec (see `jsExprEval`).
-/

namespace FluxState

/-- Node kinds, from `src/types/machine.ts` (`NodeKind`). -/
inductive NodeKind where
  | atomic
  | initial
  | final
  | parallel
deriving DecidableEq

/-- Node payload: `StateNodeData` from `src/types/machine.ts`. -/
structure StateNodeData where
  label : String
  kind : NodeKind
deriving DecidableEq

/-- Presentation position (JS numbers restricted to the integers the repo uses). -/
structure Pos where
  x : Int
  y : Int
deriving DecidableEq

/-- The width/height style hint attached to parallel containers. -/
structure NodeStyle where
  width : Int
  height : Int
deriving DecidableEq

/-- Edge arrow marker (reactflow `MarkerType`); the repo only uses `arrowclosed`. -/
structure MarkerEnd where
  markerType : String
deriving DecidableEq

def arrowClosed : MarkerEnd := ⟨"arrowclosed"⟩

/-- `StateNode` from `src/types/machine.ts`: a reactflow node restricted to the
fields the core reads.  `parentNode` is the ownership edge (`none` = root). -/
structure StateNode where
  id : String
  type : String
  position : Pos
  parentNode : Option String
  extent : Option String
  style : Option NodeStyle
  data : StateNodeData
deriving DecidableEq

/-- Transition payload: `TransitionData` from `src/types/machine.ts`. -/
structure TransitionData where
  event : String
  guard : String
  actions : List String
deriving DecidableEq

/-- `TransitionEdge` from `src/types/machine.ts`. -/
structure TransitionEdge where
  id : String
  type : String
  source : String
  target : String
  markerEnd : Option MarkerEnd
  data : TransitionData
deriving DecidableEq

/-- Canvas viewport (presentation only). -/
structure Viewport where
  x : Int
  y : Int
  zoom : Int
deriving DecidableEq

/-- `MachineDocument` from `src/types/machine.ts`. -/
structure MachineDocument where
  version : Nat
  machineId : String
  nodes : List StateNode
  edges : List TransitionEdge
  viewport : Viewport
deriving DecidableEq

/-! ## JavaScript value semantics helpers -/

/-- JS truthiness of a possibly-absent string: `undefined`, `null` and `""` are
falsy, every other string truthy.  Used wherever the source tests a string with
`if (x)`, `x ? _ : _`, `x || _` or `!x`. -/
def strTruthy : Option String → Bool
  | none => false
  | some s => s ≠ ""

/-- JS `a || b` on a possibly-absent string. -/
def strOrElse (a : Option String) (b : String) : String :=
  match a with
  | some s => if s = "" then b else s
  | none => b

/-- Association-list read with JS-object semantics.  Because `recSet` overwrites
in place, at most one binding per key exists and the first match is the value. -/
def recGet {α : Type} (l : List (String × α)) (k : String) : Option α :=
  (l.find? (fun p => p.1 = k)).map (·.2)

/-- Association-list write with JS-object semantics: assignment to an existing
key replaces the value but keeps the original insertion position; a new key is
appended. -/
def recSet {α : Type} (l : List (String × α)) (k : String) (v : α) :
    List (String × α) :=
  match l with
  | [] => [(k, v)]
  | (k', v') :: rest =>
    if k' = k then (k', v) :: rest else (k', v') :: recSet rest k v

/-- Insert into a JS `Set` modelled as an insertion-ordered duplicate-free list. -/
def setAdd (l : List String) (x : String) : List String :=
  if l.contains x then l else l ++ [x]

/-! ## Graph index (`buildMaps` in `src/lib/code-format.ts`)

The source rebuilds three maps per call.  `nodeById` is `new Map(pairs)`, whose
constructor lets a later duplicate id overwrite an earlier one, hence the
last-match lookup.  `edgesBySource` and `childrenByParent` group in declaration
order, which is exactly a filter of the original lists. -/

def nodeById (m : MachineDocument) (i : String) : Option StateNode :=
  (m.nodes.filter (fun n => n.id = i)).getLast?

def edgesOf (m : MachineDocument) (s : String) : List TransitionEdge :=
  m.edges.filter (fun e => e.source = s)

def childrenOf (m : MachineDocument) (p : Option String) : List StateNode :=
  m.nodes.filter (fun n => n.parentNode = p)

/-- The parent pointer the `getAncestors` loop follows:
`maps.nodeById.get(current)?.parentNode`. -/
def parentOf (m : MachineDocument) (c : String) : Option String :=
  (nodeById m c).bind (·.parentNode)

/-- The non-marker children of a parent, the repeated
`children.filter(child => child.data.kind !== 'initial')` of the source. -/
def nonMarkerChildren (m : MachineDocument) (p : Option String) : List StateNode :=
  (childrenOf m p).filter (fun c => c.data.kind ≠ NodeKind.initial)

/-! ## Character-level string primitives

`String.trim`, `toLowerCase` and `split` are modelled on the character lists
(`String.data`) so that every definition evaluates inside the kernel; the
repo's labels, events and guards are ASCII, on which these agree with the
JavaScript originals. -/

/-- The ASCII whitespace `String.prototype.trim` strips. -/
def isJsWhitespace (c : Char) : Bool :=
  c = ' ' || c = '\t' || c = '\n' || c = '\r' ||
    c = Char.ofNat 11 || c = Char.ofNat 12

def trimChars (cs : List Char) : List Char :=
  ((cs.dropWhile isJsWhitespace).reverse.dropWhile isJsWhitespace).reverse

/-- `s.trim()`. -/
def strTrim (s : String) : String := String.mk (trimChars s.data)

/-- `toLowerCase` on the ASCII letters. -/
def asciiLowerChar (c : Char) : Char :=
  if 'A' ≤ c && c ≤ 'Z' then Char.ofNat (c.toNat + 32) else c

/-! ## `slugify` (`src/lib/ids.ts`)

`value.trim().toLowerCase().replace(/[^a-z0-9]+/g,'_').replace(/^_+|_+$/g,'') || 'state'`.
The run-collapsing replace is a map to `'_'` followed by squeezing adjacent
underscores, which is the same function. -/

def isSlugChar (c : Char) : Bool :=
  ('a' ≤ c && c ≤ 'z') || ('0' ≤ c && c ≤ '9')

def squeezeUnderscores : List Char → List Char
  | [] => []
  | [c] => [c]
  | c :: d :: rest =>
    if c = '_' && d = '_' then squeezeUnderscores (d :: rest)
    else c :: squeezeUnderscores (d :: rest)

def slugify (value : String) : String :=
  let lowered := (trimChars value.data).map asciiLowerChar
  let mapped := lowered.map (fun c => if isSlugChar c then c else '_')
  let collapsed := squeezeUnderscores mapped
  let stripped :=
    ((collapsed.dropWhile (fun c => c = '_')).reverse.dropWhile
      (fun c => c = '_')).reverse
  if stripped.isEmpty then "state" else String.mk stripped

/-! ## Entry resolver (`findInitialTarget` / `enterNode` in `code-format.ts`) -/

/-- `findInitialTarget`: the simulation side's initial selection — first
`initial` marker's first outgoing edge's target, and if there is no marker or
the marker has no edge, the first non-marker sibling. -/
def findInitialTarget (m : MachineDocument) (parentId : Option String) :
    Option String :=
  let siblings := childrenOf m parentId
  let fallback := (siblings.find? (fun n => n.data.kind ≠ NodeKind.initial)).map (·.id)
  match siblings.find? (fun n => n.data.kind = NodeKind.initial) with
  | some marker =>
    match (edgesOf m marker.id).head? with
    | some e => some e.target
    | none => fallback
  | none => fallback

/-- `enterNode`, with explicit fuel for the recursion.  The `seen` set is the
source's visited set; fuel exhaustion returns `[]`, and
`enterNodeF_fuel_stable` below shows the bound `enterFuel` is never reached, so
the fuelled function at that bound is the source's total function. -/
def enterNodeF (m : MachineDocument) : Nat → List String → String → List String
  | 0, _, _ => []
  | fuel + 1, seen, nodeId =>
    if seen.contains nodeId then []
    else
      let seen' := nodeId :: seen
      match nodeById m nodeId with
      | none => []
      | some node =>
        if node.data.kind = NodeKind.initial then
          -- `const target = (edges[0])?.target; return target ? enter(target) : []`
          match (edgesOf m node.id).head? with
          | some e => if e.target = "" then [] else enterNodeF m fuel seen' e.target
          | none => []
        else
          let children := nonMarkerChildren m (some node.id)
          if children.isEmpty then [node.id]
          else if node.data.kind = NodeKind.parallel then
            children.foldl
              (fun acc c =>
                (enterNodeF m fuel seen' c.id).foldl (fun a x => setAdd a x) acc)
              []
          else
            -- `findInitialTarget(node.id) ?? children[0]?.id`, then JS truthiness
            match findInitialTarget m (some node.id) with
            | some t => if t = "" then [node.id] else enterNodeF m fuel seen' t
            | none =>
              match children.head? with
              | some c => if c.id = "" then [node.id] else enterNodeF m fuel seen' c.id
              | none => [node.id]

/-- Every id an `enterNode` recursion can be called on, plus the starting id:
node ids and edge targets.  The recursion depth is bounded by its length. -/
def candIds (m : MachineDocument) (start : String) : List String :=
  (start :: (m.nodes.map (·.id) ++ m.edges.map (·.target))).dedup

def enterFuel (m : MachineDocument) (start : String) : Nat :=
  (candIds m start).length + 1

/-- The total `enterNode`: the fuelled body at a provably sufficient bound. -/
def enterNode (m : MachineDocument) (nodeId : String) : List String :=
  enterNodeF m (enterFuel m nodeId) [] nodeId

/-- `initialSimulationState`.  `if (rootTarget)` is a truthiness test, and the
fallback looks for a parentless (`!node.parentNode`) non-marker node. -/
def initialSimulationState (m : MachineDocument) : List String :=
  let fallback :=
    match m.nodes.find?
        (fun n => !strTruthy n.parentNode && n.data.kind ≠ NodeKind.initial) with
    | some n => enterNode m n.id
    | none => []
  match findInitialTarget m none with
  | some rt => if rt = "" then fallback else enterNode m rt
  | none => fallback

/-! ## Guard evaluation (`evaluateGuard` in `code-format.ts`)

The source hands nonblank guard text to the host JavaScript engine:
`new Function('context','event', return (guard);)` called on `({}, {type})`,
with `Boolean` applied to the result and any thrown error caught and mapped to
`false`.  The host engine is not part of this repository, so it enters the
embedding as a parameter `host : String → String → Option Bool`: `some b` means
the evaluation returned a value of truthiness `b`, `none` means it threw
(syntax error included).  `evaluateGuard` itself — the blank-guard short
circuit and the try/catch — is transcribed from the source. -/

abbrev HostEval := String → String → Option Bool

def evaluateGuard (host : HostEval) (guard : String) (eventType : String) : Bool :=
  if strTrim guard = "" then true
  else
    match host guard eventType with
    | some b => b
    | none => false

/-- Modelled from the spec: the host JavaScript expression evaluator for guard
text, which is not code of this repository.  The spec fixes its behaviour on
the cases it names: `"1 === 2"` always yields `false`, and "guard text
containing a syntax error yields `false` without raising".  The model
evaluates boolean and numeric literals and `===`/`!==` comparisons of numeric
literals, and reports everything else as a thrown error (`none`). -/
def wordsAux : List Char → List Char → List (List Char)
  | [], acc => [acc.reverse]
  | c :: rest, acc =>
    if c = ' ' then acc.reverse :: wordsAux rest [] else wordsAux rest (c :: acc)

/-- Space-separated tokens of an expression. -/
def exprWords (cs : List Char) : List (List Char) :=
  (wordsAux cs []).filter (fun w => !w.isEmpty)

def digitVal? (c : Char) : Option Nat :=
  if '0' ≤ c && c ≤ '9' then some (c.toNat - 48) else none

/-- A decimal numeric literal. -/
def charsToNat? : List Char → Option Nat
  | [] => none
  | cs =>
    cs.foldl
      (fun acc c =>
        match acc, digitVal? c with
        | some a, some d => some (a * 10 + d)
        | _, _ => none)
      (some 0)

def jsExprEval : HostEval := fun guard _eventType =>
  match exprWords (strTrim guard).data with
  | [t] =>
    if t = "true".data then some true
    else if t = "false".data then some false
    else
      match charsToNat? t with
      | some n => some (decide (n ≠ 0))
      | none => none
  | [a, op, b] =>
    match charsToNat? a, charsToNat? b with
    | some x, some y =>
      if op = "===".data then some (decide (x = y))
      else if op = "!==".data then some (decide (x ≠ y))
      else none
    | _, _ => none
  | _ => none

/-! ## Ancestor chains (`getAncestors` in `code-format.ts`)

`while (current) { chain.push(current); current = nodeById.get(current)?.parentNode }`
has no cycle protection, so it is embedded with fuel counting loop iterations;
`none` means the loop runs forever.  The truthiness test makes both a missing
parent and an empty-string parent terminate the walk. -/

def ancLoop (m : MachineDocument) : Nat → Option String → List String →
    Option (List String)
  | _, none, acc => some acc
  | fuel, some c, acc =>
    if c = "" then some acc
    else
      match fuel with
      | 0 => none
      | fuel + 1 => ancLoop m fuel (parentOf m c) (acc ++ [c])

def getAncestorsF (fuel : Nat) (m : MachineDocument) (nodeId : String) :
    Option (List String) :=
  ancLoop m fuel (some nodeId) []

/-- The edge predicate of `findTransitionForEvent`: raw (untrimmed) event
equality plus a true guard. -/
def edgeMatches (host : HostEval) (eventType : String) (e : TransitionEdge) :
    Bool :=
  e.data.event = eventType && evaluateGuard host e.data.guard eventType

/-- The `for (const source of ancestors)` search of `findTransitionForEvent`:
first ancestor with a matching outgoing edge, edges in declaration order. -/
def findInChain (host : HostEval) (m : MachineDocument) (eventType : String) :
    List String → Option TransitionEdge
  | [] => none
  | src :: rest =>
    match (edgesOf m src).find? (edgeMatches host eventType) with
    | some e => some e
    | none => findInChain host m eventType rest

/-- `findTransitionForEvent`; the outer `none` is divergence of `getAncestors`. -/
def findTransitionForEventF (host : HostEval) (fuel : Nat) (m : MachineDocument)
    (activeLeaf : String) (eventType : String) : Option (Option TransitionEdge) :=
  (getAncestorsF fuel m activeLeaf).map (findInChain host m eventType)

/-- The `for (const leaf of activeLeafIds)` loop of `triggerSimulationEvent`,
keeping the full input configuration for the no-match return. -/
def trigLoop (host : HostEval) (fuel : Nat) (m : MachineDocument)
    (cfg : List String) (eventType : String) :
    List String → Option (List String × Option String)
  | [] => some (cfg, none)
  | leaf :: rest =>
    match findTransitionForEventF host fuel m leaf eventType with
    | none => none
    | some none => trigLoop host fuel m cfg eventType rest
    | some (some t) => some (enterNode m t.target, some t.id)

/-- `triggerSimulationEvent`: `none` when `getAncestors` diverges. -/
def triggerSimulationEventF (host : HostEval) (fuel : Nat) (m : MachineDocument)
    (activeLeafIds : List String) (eventType : String) :
    Option (List String × Option String) :=
  trigLoop host fuel m activeLeafIds eventType activeLeafIds

/-- Insertion sort standing in for `[...events].sort((a,b) => a.localeCompare(b))`
(code-point order; the repo's event names are plain ASCII). -/
def insertSorted (s : String) : List String → List String
  | [] => [s]
  | x :: rest => if s ≤ x then s :: x :: rest else x :: insertSorted s rest

def sortStrings (l : List String) : List String :=
  l.foldr insertSorted []

/-- `getAvailableEvents`: trimmed non-empty event names of every outgoing edge
of every ancestor of every active leaf, deduplicated in insertion order, then
sorted.  Fuelled through `getAncestors` like the trigger. -/
def getAvailableEventsF (fuel : Nat) (m : MachineDocument)
    (activeLeafIds : List String) : Option (List String) :=
  let step := fun (acc : Option (List String)) (leaf : String) =>
    match acc with
    | none => none
    | some events =>
      match getAncestorsF fuel m leaf with
      | none => none
      | some chain =>
        some
          (chain.foldl
            (fun acc' src =>
              (edgesOf m src).foldl
                (fun a e =>
                  if strTrim e.data.event = "" then a
                  else setAdd a (strTrim e.data.event))
                acc')
            events)
  (activeLeafIds.foldl step (some [])).map sortStrings

/-! ## The XState interchange tree

`XStateState` from the import/export module: `states` and `on` are JS objects,
modelled as insertion-ordered association lists (`recSet` writes).  An absent
`states`/`on` object and a present empty one drive every consumer identically
(both iterate zero entries), so both are the empty list here. -/

/-- `string | string[]` union used by `target` and `actions`. -/
inductive StrOrList where
  | one (s : String)
  | many (l : List String)
deriving DecidableEq

/-- `XStateTransition`: `{target?, guard?, cond?, actions?}`. -/
structure XStateTransition where
  target : Option StrOrList
  guard : Option String
  cond : Option String
  actions : Option StrOrList
deriving DecidableEq

/-- One entry of an `on` object: `string | XStateTransition | Array<...>`. -/
inductive StrOrTransition where
  | str (s : String)
  | tr (t : XStateTransition)
deriving DecidableEq

inductive OnValue where
  | str (s : String)
  | single (t : XStateTransition)
  | list (l : List StrOrTransition)
deriving DecidableEq

mutual
/-- `XStateState` (also the root shape `XStateRoot`). -/
inductive XStateState where
  | mk (id : Option String) (type : Option String) (initial : Option String)
      (states : List (String × XStateState))
      (onV : List (String × OnValue))
      (meta : Option XMeta)

/-- The `meta` payload; `fluxState` carries the embedded original document. -/
inductive XMeta where
  | mk (kind : Option NodeKind) (position : Option Pos)
      (style : Option NodeStyle) (fluxState : Option MachineDocument)
end

def XStateState.id : XStateState → Option String
  | .mk i _ _ _ _ _ => i

def XStateState.type : XStateState → Option String
  | .mk _ t _ _ _ _ => t

def XStateState.initial : XStateState → Option String
  | .mk _ _ i _ _ _ => i

def XStateState.states : XStateState → List (String × XStateState)
  | .mk _ _ _ s _ _ => s

def XStateState.onV : XStateState → List (String × OnValue)
  | .mk _ _ _ _ o _ => o

def XStateState.meta : XStateState → Option XMeta
  | .mk _ _ _ _ _ m => m

def XMeta.kind : XMeta → Option NodeKind
  | .mk k _ _ _ => k

def XMeta.position : XMeta → Option Pos
  | .mk _ p _ _ => p

def XMeta.style : XMeta → Option NodeStyle
  | .mk _ _ s _ => s

def XMeta.fluxState : XMeta → Option MachineDocument
  | .mk _ _ _ f => f

/-! ## Export (`exportMachineAsXState` module) -/

/-- `JSON.parse(JSON.stringify(machine))`: the identity on the plain data the
document consists of. -/
def toSerializableMachine (m : MachineDocument) : MachineDocument := m

/-- `firstInitialTarget`: the export side's initial lookup — marker's first
edge's target, with NO first-sibling fallback (unlike the simulator's
`findInitialTarget`). -/
def firstInitialTarget (m : MachineDocument) (parentId : Option String) :
    Option String :=
  match (childrenOf m parentId).find? (fun n => n.data.kind = NodeKind.initial) with
  | some marker => ((edgesOf m marker.id).head?).map (·.target)
  | none => none

/-- `toTransitionValue`. -/
def toTransitionValue (e : TransitionEdge) : XStateTransition :=
  let guard := strTrim e.data.guard
  let actions := e.data.actions.filter (fun a => strTrim a ≠ "")
  { target := some (.one ("#" ++ e.target))
    guard := if guard = "" then none else some guard
    cond := none
    actions :=
      match actions with
      | [] => none
      | [a] => some (.one a)
      | l => some (.many l) }

/-- `count === 0 ? base : base_count+1` — the suffixing expression of the
key-assignment loops. -/
def occKey (base : String) (count : Nat) : String :=
  if count = 0 then base else base ++ "_" ++ Nat.repr (count + 1)

/-- The key-assignment loop shared by `buildStatesForParent` and the code
generator's `createContext`: slugified label as base key, k-th occurrence of a
base suffixed `base_k` (k ≥ 2). -/
def assignKeysAux : List StateNode → List (String × Nat) →
    List (String × String) → List (String × String)
  | [], _, acc => acc
  | c :: rest, keyCount, acc =>
    let base := slugify c.data.label
    let count := (recGet keyCount base).getD 0
    assignKeysAux rest (recSet keyCount base (count + 1))
      (recSet acc c.id (occKey base count))

def assignKeys (children : List StateNode) : List (String × String) :=
  assignKeysAux children [] []

/-- The `on` grouping of `buildStatesForParent`: outgoing edges with non-blank
events grouped by trimmed event name in first-occurrence order. -/
def groupTransitions (edges : List TransitionEdge) :
    List (String × List XStateTransition) :=
  edges.foldl
    (fun grouped e =>
      let ev := strTrim e.data.event
      if ev = "" then grouped
      else recSet grouped ev (((recGet grouped ev).getD []) ++ [toTransitionValue e]))
    []

def onFromGroups (grouped : List (String × List XStateTransition)) :
    List (String × OnValue) :=
  grouped.map
    (fun p =>
      (p.1,
        match p.2 with
        | [t] => OnValue.single t
        | l => OnValue.list (l.map StrOrTransition.tr)))

/-- The `stateConfig` object built per child: `id`, `type` for final/parallel,
`initial` — set only when the child's initial marker's edge target has a key
(`if (initialTargetId && nested.idToKey[initialTargetId])`), and never for
parallel children — nested `states`, grouped `on`, and presentation `meta`. -/
def buildStateConfig (m : MachineDocument) (child : StateNode)
    (nested : List (String × XStateState) × List (String × String)) :
    XStateState :=
  let type : Option String :=
    if child.data.kind = NodeKind.final then some "final"
    else if child.data.kind = NodeKind.parallel then some "parallel"
    else none
  let initial : Option String :=
    if type ≠ some "parallel" then
      match firstInitialTarget m (some child.id) with
      | some t =>
        if t = "" then none
        else
          match recGet nested.2 t with
          | some k => if k = "" then none else some k
          | none => none
      | none => none
    else none
  XStateState.mk (some child.id) type initial nested.1
    (onFromGroups (groupTransitions (edgesOf m child.id)))
    (some (.mk (some child.data.kind) (some child.position) child.style none))

/-- `buildStatesForParent`, fuelled on the parent/child recursion depth (the
source recurses along `parentNode` links and diverges if they form a cycle;
`none` is that divergence). -/
def buildStatesForParentF (m : MachineDocument) :
    Nat → Option String →
    Option (List (String × XStateState) × List (String × String))
  | 0, _ => none
  | fuel + 1, parentId =>
    let children := nonMarkerChildren m parentId
    let idToKey := assignKeys children
    match children.foldlM
        (fun (states : List (String × XStateState)) child =>
          match buildStatesForParentF m fuel (some child.id) with
          | some nested =>
            some (recSet states ((recGet idToKey child.id).getD "")
              (buildStateConfig m child nested))
          | none => none)
        [] with
    | some states => some (states, idToKey)
    | none => none

/-- `buildRootState`. -/
def buildRootStateF (fuel : Nat) (m : MachineDocument) : Option XStateState :=
  match buildStatesForParentF m fuel none with
  | none => none
  | some root =>
    let rootInitialTarget := firstInitialTarget m none
    let firstStateKey := (root.1.head?).map (·.1)
    let initial : Option String :=
      match rootInitialTarget with
      | some rt =>
        if rt = "" then
          firstStateKey.bind (fun k => if k = "" then none else some k)
        else
          match recGet root.2 rt with
          | some k =>
            if k = "" then
              firstStateKey.bind (fun k' => if k' = "" then none else some k')
            else some k
          | none => firstStateKey.bind (fun k => if k = "" then none else some k)
      | none => firstStateKey.bind (fun k => if k = "" then none else some k)
    some
      (.mk (some m.machineId) none initial root.1 []
        (some (.mk none none none (some (toSerializableMachine m)))))

/-- `exportMachineAsXState` modulo JSON stringification: the interchange tree
the source stringifies (`none` = the recursion diverges). -/
def exportMachineAsXStateF (fuel : Nat) (m : MachineDocument) :
    Option XStateState :=
  buildRootStateF fuel m

/-! ## Import (`importMachineFromXState`)

The heuristic reconstruction path threads the mutable `nodes`, `edges`,
`pathToId` and `idToPath` collections as an explicit state, together with the
module-global counter of `createId` (`src/lib/ids.ts`); `Date.now().toString(36)`
is a host value and enters as the opaque `dateTok` string. -/

def base36Char (d : Nat) : Char :=
  if d < 10 then Char.ofNat (48 + d) else Char.ofNat (87 + d)

def base36Aux : Nat → Nat → List Char → List Char
  | 0, _, acc => acc
  | fuel + 1, n, acc =>
    if n = 0 then acc else base36Aux fuel (n / 36) (base36Char (n % 36) :: acc)

/-- JS `n.toString(36)` for a natural number. -/
def natToBase36 (n : Nat) : String :=
  if n = 0 then "0" else String.mk (base36Aux (n + 1) n [])

/-- `createId` from `src/lib/ids.ts`: increments the module counter, then
renders `prefix_date_counter36`. -/
def createId (pre : String) (dateTok : String) (counter : Nat) : String × Nat :=
  let c := counter + 1
  (pre ++ "_" ++ dateTok ++ "_" ++ natToBase36 c, c)

/-- `readActions`.  `if (!value) return []` is falsy for a missing value and
for the empty string; an array (empty included) is truthy and mapped through
`String`. -/
def readActions : Option StrOrList → List String
  | none => []
  | some (.one s) => if s = "" then [] else [s]
  | some (.many l) => l

/-- `normalizeTransitions`: bare strings become `{target}` objects. -/
def normalizeTransitions : OnValue → List XStateTransition
  | .str s => [{ target := some (.one s), guard := none, cond := none, actions := none }]
  | .single t => [t]
  | .list l =>
    l.map fun x =>
      match x with
      | .str s => { target := some (.one s), guard := none, cond := none, actions := none }
      | .tr t => t

/-- `resolveTarget`: absolute `#id` reference, exact dotted path, sibling path
(relative to the current state's parent), then child path; first hit wins. -/
def resolveTarget (target : String) (currentPath : String)
    (pathToId : List (String × String)) (idSet : List String) : Option String :=
  if target = "" then none
  else if target.startsWith "#" then
    let absoluteId := target.drop 1
    if idSet.contains absoluteId then some absoluteId else none
  else if (recGet pathToId target).isSome then recGet pathToId target
  else
    let parts := currentPath.splitOn "."
    let parentPath :=
      if parts.length ≥ 2 then String.intercalate "." parts.dropLast else ""
    let candidate := if parentPath = "" then target else parentPath ++ "." ++ target
    if (recGet pathToId candidate).isSome then recGet pathToId candidate
    else
      let localChildCandidate := currentPath ++ "." ++ target
      if (recGet pathToId localChildCandidate).isSome then
        recGet pathToId localChildCandidate
      else none

/-- The mutable collections of `importMachineFromXState`, threaded as a state. -/
structure ImpState where
  nodes : List StateNode
  edges : List TransitionEdge
  pathToId : List (String × String)
  idToPath : List (String × String)
  counter : Nat

/-- The `createNode` closure of the import walk. -/
def createNode (key : String) (config : XStateState) (parentId : Option String)
    (path : String) (index : Nat) (st : ImpState) : ImpState :=
  let id := strOrElse config.id path
  let kind : NodeKind :=
    if config.type = some "final" then NodeKind.final
    else if config.type = some "parallel" then NodeKind.parallel
    else NodeKind.atomic
  let metaPosition := config.meta.bind (·.position)
  let defaultX : Int := 90 + (Int.ofNat (index % 4)) * 220
  let defaultY : Int := 90 + (Int.ofNat (index / 4)) * 150
  let node : StateNode :=
    { id := id
      type := "stateNode"
      position := metaPosition.getD ⟨defaultX, defaultY⟩
      parentNode := parentId
      extent := if strTruthy parentId then some "parent" else none
      style :=
        match config.meta.bind (·.style) with
        | some s => some s
        | none => if kind = NodeKind.parallel then some ⟨320, 220⟩ else none
      data := ⟨key, kind⟩ }
  { st with
      nodes := st.nodes ++ [node]
      pathToId := recSet st.pathToId path id
      idToPath := recSet st.idToPath id path }

/-- The `walkStates` recursion: one synthetic node per declared state, children
keyed under `config.id || path`. -/
def walkStates (dateTok : String) :
    List (String × XStateState) → Option String → String → Nat → ImpState →
    ImpState
  | [], _, _, _, st => st
  | (key, XStateState.mk cid cty cini csts conv cmeta) :: rest,
      parentId, parentPath, index, st =>
    let config := XStateState.mk cid cty cini csts conv cmeta
    let path := if parentPath = "" then key else parentPath ++ "." ++ key
    let st1 := createNode key config parentId path index st
    let st2 := walkStates dateTok csts (some (strOrElse cid path)) path 0 st1
    walkStates dateTok rest parentId parentPath (index + 1) st2

/-- `createInitialMarker`: a synthetic `initial` marker node plus its single
`INIT` edge; silently skipped when the target path is unknown. -/
def createInitialMarker (dateTok : String) (parentId : Option String)
    (parentPath : String) (initialKey : String) (st : ImpState) : ImpState :=
  let targetPath :=
    if parentPath = "" then initialKey else parentPath ++ "." ++ initialKey
  match recGet st.pathToId targetPath with
  | none => st
  | some targetId =>
    if targetId = "" then st
    else
      let (markerId, c1) :=
        createId (if strTruthy parentId then "initial_child" else "initial_root")
          dateTok st.counter
      let markerNode : StateNode :=
        { id := markerId
          type := "stateNode"
          position := if strTruthy parentId then ⟨22, 22⟩ else ⟨40, 120⟩
          parentNode := parentId
          extent := if strTruthy parentId then some "parent" else none
          style := none
          data := ⟨"Initial", NodeKind.initial⟩ }
      let (edgeId, c2) := createId "edge" dateTok c1
      { st with
          nodes := st.nodes ++ [markerNode]
          edges := st.edges ++
            [{ id := edgeId
               type := "transitionEdge"
               source := markerId
               target := targetId
               markerEnd := some arrowClosed
               data := ⟨"INIT", "", []⟩ }]
          counter := c2 }

/-- One edge emission of `walkTransitions` (the innermost loop body). -/
def emitEdge (dateTok : String) (idSet : List String) (sourceId statePath : String)
    (eventType : String) (transition : XStateTransition) (st : ImpState)
    (target : String) : ImpState :=
  match resolveTarget target statePath st.pathToId idSet with
  | none => st
  | some resolved =>
    if resolved = "" then st
    else
      let (eid, c) := createId "edge" dateTok st.counter
      { st with
          edges := st.edges ++
            [{ id := eid
               type := "transitionEdge"
               source := sourceId
               target := resolved
               markerEnd := some arrowClosed
               data :=
                 ⟨eventType, transition.guard.getD (transition.cond.getD ""),
                   readActions transition.actions⟩ }]
          counter := c }

/-- The `walkTransitions` recursion: initial markers, then the `on` object's
edges, then the children.  An unresolvable source path skips the whole state,
children included (`continue`). -/
def walkTransitions (dateTok : String) (idSet : List String) :
    List (String × XStateState) → String → ImpState → ImpState
  | [], _, st => st
  | (key, XStateState.mk _cid _cty cini csts conv _cmeta) :: rest,
      parentPath, st =>
    let statePath := if parentPath = "" then key else parentPath ++ "." ++ key
    match recGet st.pathToId statePath with
    | none => walkTransitions dateTok idSet rest parentPath st
    | some sourceId =>
      if sourceId = "" then walkTransitions dateTok idSet rest parentPath st
      else
        let st1 :=
          match cini with
          | some ik =>
            if ik = "" then st
            else createInitialMarker dateTok (some sourceId) statePath ik st
          | none => st
        let st2 :=
          conv.foldl
            (fun acc p =>
              (normalizeTransitions p.2).foldl
                (fun acc2 transition =>
                  let targets :=
                    match transition.target with
                    | some (.many l) => l
                    | some (.one s) => if s = "" then [] else [s]
                    | none => []
                  targets.foldl
                    (emitEdge dateTok idSet sourceId statePath p.1 transition)
                    acc2)
                acc)
            st1
        let st3 := walkTransitions dateTok idSet csts statePath st2
        walkTransitions dateTok idSet rest parentPath st3

/-- `isMachineDocument`: `Array.isArray(nodes) && Array.isArray(edges) &&
typeof machineId === 'string'` — satisfied by every typed document, so in the
embedding the check is presence of the value. -/
def isMachineDocument (v : Option MachineDocument) : Bool :=
  v.isSome

/-- `normalizeImportedMachine`.  On the typed documents of this embedding the
`?? ` fallbacks for `label`, `kind`, `event`, `guard`, `actions` and `viewport`
are identities (those fields are always present); `machineId || 'importedMachine'`
and the truthiness-dependent `extent` are kept. -/
def normalizeImportedMachine (machine : MachineDocument) : MachineDocument :=
  { version := 1
    machineId := strOrElse (some machine.machineId) "importedMachine"
    nodes :=
      machine.nodes.map fun node =>
        { node with
            type := "stateNode"
            data := { label := node.data.label, kind := node.data.kind }
            extent := if strTruthy node.parentNode then some "parent" else none }
    edges :=
      machine.edges.map fun edge =>
        { edge with
            type := "transitionEdge"
            markerEnd := some (edge.markerEnd.getD arrowClosed)
            data :=
              { event := edge.data.event
                guard := edge.data.guard
                actions := edge.data.actions } }
    viewport := machine.viewport }

/-- `importMachineFromXState` on the parsed value (`none` = `JSON.parse` threw,
and the exception propagates out of the import call). -/
def importMachineFromXState (parsed : Option XStateState) (dateTok : String) :
    Except String MachineDocument :=
  match parsed with
  | none => Except.error "SyntaxError: the input is not parseable as JSON"
  | some p =>
    match p.meta.bind XMeta.fluxState with
    | some embedded =>
      -- `isMachineDocument(embedded)` holds of every typed document
      Except.ok (normalizeImportedMachine embedded)
    | none =>
      let machineId := strOrElse p.id "importedMachine"
      let st0 : ImpState := ⟨[], [], [], [], 0⟩
      let st1 := walkStates dateTok p.states none "" 0 st0
      let idSet := st1.nodes.map (·.id)
      let st2 :=
        match p.initial with
        | some ik =>
          if ik = "" then st1 else createInitialMarker dateTok none "" ik st1
        | none => st1
      let st3 := walkTransitions dateTok idSet p.states "" st2
      Except.ok
        (normalizeImportedMachine ⟨1, machineId, st3.nodes, st3.edges, ⟨0, 0, 1⟩⟩)

/-! ## The import at the JSON level

`importMachineFromXState` receives whatever `JSON.parse` produced, and every
property access in it is dynamic: reading a member of `null` or `undefined`
throws a `TypeError`, as does calling `startsWith` on a non-string transition
target.  `JValue` is the JSON value universe (numbers restricted to the
integers, as everywhere in this embedding) and the combinators below are the
JavaScript member / `Object.entries` / truthiness semantics on it, with
`none : Option JValue` standing for `undefined`.  `importMachineFromXStateJ`
is the import read over this whole domain: `Except.error` is a thrown
exception (the propagated `SyntaxError` of a failed parse, or a `TypeError`),
and the outer `Option` reports fuel exhaustion of the two walks, as in the
other fuelled embeddings.  The typed `importMachineFromXState` above is the
same source restricted to well-typed payloads (such as the export's own
output, the only values claim C1 feeds it). -/

inductive JValue where
  | null : JValue
  | bool : Bool → JValue
  | num : Int → JValue
  | str : String → JValue
  | arr : List JValue → JValue
  | obj : List (String × JValue) → JValue

/-- JavaScript truthiness of a possibly-`undefined` JSON value. -/
def jTruthy : Option JValue → Bool
  | none => false
  | some .null => false
  | some (.bool b) => b
  | some (.num n) => decide (n ≠ 0)
  | some (.str s) => decide (s ≠ "")
  | some (.arr _) => true
  | some (.obj _) => true

/-- Nullish (`null` or `undefined`), the test of `??` and `?.`. -/
def jNullish : Option JValue → Bool
  | none => true
  | some .null => true
  | some _ => false

/-- JavaScript `String(v)` on JSON values: arrays join their elements with
commas (`null` elements render empty, as in `Array.prototype.join`), objects
print `[object Object]`. -/
def jToString : JValue → String
  | .null => "null"
  | .bool b => if b then "true" else "false"
  | .num n => toString n
  | .str s => s
  | .obj _ => "[object Object]"
  | .arr es =>
    String.intercalate ","
      (es.attach.map fun x =>
        match x with
        | ⟨.null, _⟩ => ""
        | ⟨v, _⟩ => jToString v)

/-- JavaScript `v.k`: a `TypeError` on `null`/`undefined`, the named own
property of an object (`undefined` when absent; `JSON.parse` output has no
duplicate keys), `undefined` on the other primitives and on arrays (no array
property is named in the import). -/
def jMember : Option JValue → String → Except String (Option JValue)
  | none, k =>
    .error ("TypeError: cannot read properties of undefined (reading " ++ k ++ ")")
  | some .null, k =>
    .error ("TypeError: cannot read properties of null (reading " ++ k ++ ")")
  | some (.obj fields), k => .ok (recGet fields k)
  | some _, _ => .ok none

/-- JavaScript `v?.k`. -/
def jMemberOpt (v : Option JValue) (k : String) : Except String (Option JValue) :=
  if jNullish v then .ok none else jMember v k

/-- JavaScript `a ?? b`. -/
def jCoalesce (a b : Option JValue) : Option JValue :=
  if jNullish a then b else a

/-- `Object.entries`: an object's own entries in declaration order, an array's
indexed elements, a string's indexed characters, nothing for the remaining
primitives.  `null`/`undefined` would throw, but every call site guards with a
truthiness test first. -/
def jEntries : Option JValue → Except String (List (String × JValue))
  | none => .error "TypeError: Object.entries of undefined"
  | some .null => .error "TypeError: Object.entries of null"
  | some (.obj fields) => .ok fields
  | some (.arr es) => .ok (es.enum.map fun p => (Nat.repr p.1, p.2))
  | some (.str s) => .ok (s.data.enum.map fun p => (Nat.repr p.1, .str (String.mk [p.2])))
  | some (.bool _) => .ok []
  | some (.num _) => .ok []

def jIsArray : Option JValue → Bool
  | some (.arr _) => true
  | _ => false

def jIsString : Option JValue → Bool
  | some (.str _) => true
  | _ => false

/-- `v || fallback` used as a string (ids, `machineId`).  A truthy non-string
is carried along raw by the source; the typed shape renders it with
`String(...)`.  That never changes whether the import throws, only how a junk
id prints (and, for ids, junk-keyed map entries; see `createInitialMarkerJ`
for the one lookup where the distinction could surface). -/
def jStrOr (v : Option JValue) (fallback : String) : String :=
  match v with
  | some jv => if jTruthy (some jv) then jToString jv else fallback
  | none => fallback

/-- A spread-copied or `??`-defaulted field used as a string in the typed
shape: absent and `null` render empty, junk renders via `String(...)`;
content-only, never throws (the source carries the raw value instead). -/
def jStrProj : Option JValue → String
  | none => ""
  | some .null => ""
  | some jv => jToString jv

/-- A dynamic value read as an integer coordinate; junk renders `0`
(content-only, the source carries the raw value). -/
def jIntProj : Option JValue → Int
  | some (.num n) => n
  | _ => 0

/-- A dynamic value used as a `Pos` (`position ?? fallback`): nullish takes the
fallback, an object reads its `x`/`y`, junk renders zero (content-only). -/
def jPosProj (v : Option JValue) (fallback : Pos) : Pos :=
  match v with
  | some (.obj fields) => ⟨jIntProj (recGet fields "x"), jIntProj (recGet fields "y")⟩
  | some .null => fallback
  | none => fallback
  | some _ => fallback

/-- A non-nullish dynamic value used as a `NodeStyle`; junk renders zero
(content-only). -/
def jStyleProj : Option JValue → Option NodeStyle
  | some (.obj fields) =>
    some ⟨jIntProj (recGet fields "width"), jIntProj (recGet fields "height")⟩
  | some .null => none
  | none => none
  | some _ => some ⟨0, 0⟩

/-- A dynamic value cast to `NodeKind` (`node.data.kind ?? 'atomic'` is a bare
cast in the source): recognized names map to their kind, junk is carried raw
by the source and rendered `atomic` here (content-only). -/
def jKindProj : Option JValue → NodeKind
  | some (.str "initial") => NodeKind.initial
  | some (.str "final") => NodeKind.final
  | some (.str "parallel") => NodeKind.parallel
  | _ => NodeKind.atomic

/-- A dynamic `viewport ?? default` used as a `Viewport`; junk renders zero
(content-only). -/
def jViewportProj : Option JValue → Viewport
  | some (.obj fields) =>
    ⟨jIntProj (recGet fields "x"), jIntProj (recGet fields "y"),
      jIntProj (recGet fields "zoom")⟩
  | _ => ⟨0, 0, 0⟩

/-- A dynamic `actions ?? []` used as a string list: arrays map through
`String`, junk is wrapped (the source keeps the raw value; content-only). -/
def jActionsProj : Option JValue → List String
  | some (.arr es) => es.map jToString
  | some .null => []
  | none => []
  | some jv => [jToString jv]

/-- `isMachineDocument` on a dynamic value: a truthy `object` whose `nodes`
and `edges` are arrays and whose `machineId` is a string.  An array is
`typeof === 'object'` and truthy, but has none of those own properties. -/
def isMachineDocumentJ : Option JValue → Bool
  | some (.obj fields) =>
    jIsArray (recGet fields "nodes") && jIsArray (recGet fields "edges") &&
      jIsString (recGet fields "machineId")
  | _ => false

/-- One node of `normalizeImportedMachine`, read dynamically: `node.data.label`
throws when the node or its `data` is `null` or absent (a primitive node, for
example, has `data === undefined`); the spread-copied fields are projected into
the typed shape.  Access order follows the object literal. -/
def normalizeNodeJ (nv : JValue) : Except String StateNode := do
  let ndata ← jMember (some nv) "data"
  let lbl ← jMember ndata "label"
  let nid ← jMember (some nv) "id"
  let kindv ← jMember ndata "kind"
  let pn ← jMember (some nv) "parentNode"
  let posv ← jMember (some nv) "position"
  let stylev ← jMember (some nv) "style"
  pure
    { id := jStrProj nid
      type := "stateNode"
      position := jPosProj posv ⟨0, 0⟩
      parentNode := if jTruthy pn then some (jStrProj pn) else none
      extent := if jTruthy pn then some "parent" else none
      style := jStyleProj stylev
      data :=
        { label := jStrProj (jCoalesce lbl nid)
          kind := jKindProj (jCoalesce kindv (some (.str "atomic"))) } }

/-- One edge of `normalizeImportedMachine`, read dynamically: `edge.markerEnd`
throws on a `null` edge, `edge.data.event` on a nullish `data`. -/
def normalizeEdgeJ (ev : JValue) : Except String TransitionEdge := do
  let me ← jMember (some ev) "markerEnd"
  let edata ← jMember (some ev) "data"
  let evt ← jMember edata "event"
  let grd ← jMember edata "guard"
  let acts ← jMember edata "actions"
  let eid ← jMember (some ev) "id"
  let src ← jMember (some ev) "source"
  let tgt ← jMember (some ev) "target"
  pure
    { id := jStrProj eid
      type := "transitionEdge"
      source := jStrProj src
      target := jStrProj tgt
      markerEnd := some (if jNullish me then arrowClosed else ⟨jStrProj (match me with
        | some (.obj fields) => recGet fields "type"
        | _ => me)⟩)
      data :=
        { event := jStrProj (jCoalesce evt (some (.str "EVENT")))
          guard := jStrProj (jCoalesce grd (some (.str "")))
          actions := jActionsProj (jCoalesce acts (some (.arr []))) } }

/-- `normalizeImportedMachine` on the embedded dynamic value (the branch
guarded by `isMachineDocument`, which has checked `machineId`/`nodes`/`edges`
shapes — the non-array arms mirror the `TypeError` `.map` would raise
elsewhere). -/
def normalizeImportedMachineJ (v : Option JValue) : Except String MachineDocument := do
  let mid ← jMember v "machineId"
  let ns ← jMember v "nodes"
  let es ← jMember v "edges"
  let vp ← jMember v "viewport"
  let nodes ←
    match ns with
    | some (.arr l) => l.mapM normalizeNodeJ
    | _ => .error "TypeError: machine.nodes.map is not a function"
  let edges ←
    match es with
    | some (.arr l) => l.mapM normalizeEdgeJ
    | _ => .error "TypeError: machine.edges.map is not a function"
  pure
    { version := 1
      machineId := strOrElse (some (jStrProj mid)) "importedMachine"
      nodes := nodes
      edges := edges
      viewport := if jNullish vp then ⟨0, 0, 1⟩ else jViewportProj vp }

/-- The `createNode` closure at the dynamic level: reading `config.id` throws
when a state's config is `null` (the first access the loop body makes);
primitives pass through with every member `undefined`. -/
def createNodeJ (key : String) (config : JValue) (parentId : Option String)
    (path : String) (index : Nat) (st : ImpState) : Except String ImpState := do
  let cid ← jMember (some config) "id"
  let id := jStrOr cid path
  let cty ← jMember (some config) "type"
  let kind : NodeKind :=
    match cty with
    | some (.str "final") => NodeKind.final
    | some (.str "parallel") => NodeKind.parallel
    | _ => NodeKind.atomic
  let cmeta ← jMember (some config) "meta"
  let mpos ← jMemberOpt cmeta "position"
  let defaultX : Int := 90 + (Int.ofNat (index % 4)) * 220
  let defaultY : Int := 90 + (Int.ofNat (index / 4)) * 150
  let mstyle ← jMemberOpt cmeta "style"
  let node : StateNode :=
    { id := id
      type := "stateNode"
      position := jPosProj mpos ⟨defaultX, defaultY⟩
      parentNode := parentId
      extent := if strTruthy parentId then some "parent" else none
      style :=
        if jNullish mstyle then
          (if kind = NodeKind.parallel then some ⟨320, 220⟩ else none)
        else jStyleProj mstyle
      data := ⟨key, kind⟩ }
  pure
    { st with
        nodes := st.nodes ++ [node]
        pathToId := recSet st.pathToId path id
        idToPath := recSet st.idToPath id path }

/-- The `walkStates` recursion at the dynamic level, fuelled on nesting depth:
`if (!states) return` admits everything falsy, `Object.entries` then
enumerates whatever remains; each entry makes a node (throwing on a `null`
config) and recurses into `config.states` under `config.id || path`. -/
def walkStatesJF (dateTok : String) :
    Nat → Option JValue → Option String → String → ImpState →
    Option (Except String ImpState)
  | 0, _, _, _, _ => none
  | Nat.succ f, states, parentId, parentPath, st =>
    if jTruthy states = false then some (Except.ok st)
    else
      match jEntries states with
      | .error e => some (.error e)
      | .ok entries =>
        (entries.foldl
          (fun acc kc =>
            match acc.2 with
            | none => (acc.1 + 1, none)
            | some (Except.error e) => (acc.1 + 1, some (Except.error e))
            | some (Except.ok stAcc) =>
              let path :=
                if parentPath = "" then kc.1 else parentPath ++ "." ++ kc.1
              match createNodeJ kc.1 kc.2 parentId path acc.1 stAcc with
              | .error e => (acc.1 + 1, some (.error e))
              | .ok st1 =>
                match jMember (some kc.2) "states", jMember (some kc.2) "id" with
                | .error e, _ => (acc.1 + 1, some (.error e))
                | .ok _, .error e => (acc.1 + 1, some (.error e))
                | .ok csts, .ok cid =>
                  (acc.1 + 1,
                    walkStatesJF dateTok f csts (some (jStrOr cid path)) path st1))
          ((0 : Nat), some (Except.ok st))).2

/-- `createInitialMarker` with a dynamic `initial` value: the target path
template string-coerces it, except at the empty parent path, where the raw
value itself is the `Map` key — a non-string there can never hit the
string-keyed path map, so the marker is skipped. -/
def createInitialMarkerJ (dateTok : String) (parentId : Option String)
    (parentPath : String) (initialKey : JValue) (st : ImpState) : ImpState :=
  match parentPath, initialKey with
  | "", .str s => createInitialMarker dateTok parentId "" s st
  | "", _ => st
  | pp, k => createInitialMarker dateTok parentId pp (jToString k) st

/-- `resolveTarget` on a dynamic target value: falsy targets resolve to
nothing, strings resolve as `resolveTarget` does, any other truthy value
throws — `target.startsWith` is not a function. -/
def resolveTargetJ (target : JValue) (currentPath : String)
    (pathToId : List (String × String)) (idSet : List String) :
    Except String (Option String) :=
  if jTruthy (some target) = false then .ok none
  else
    match target with
    | .str s => .ok (resolveTarget s currentPath pathToId idSet)
    | _ => .error "TypeError: target.startsWith is not a function"

/-- `readActions` dynamically: falsy values (the empty array is truthy) give
`[]`, arrays map through `String`, anything else is wrapped and rendered. -/
def readActionsJ (v : Option JValue) : List String :=
  if jTruthy v = false then []
  else
    match v with
    | some (.arr es) => es.map jToString
    | some jv => [jToString jv]
    | none => []

/-- `normalizeTransitions` on a dynamic value: arrays map their string entries
to `{target}` objects and keep everything else — `null` included — as is;
bare strings wrap; any other value is returned as the single transition. -/
def normalizeTransitionsJ : JValue → List JValue
  | .arr es =>
    es.map fun e =>
      match e with
      | .str s => .obj [("target", .str s)]
      | v => v
  | .str s => [.obj [("target", .str s)]]
  | v => [v]

/-- The innermost target loop of `walkTransitions`: resolve (throwing on a
truthy non-string target), skip unresolved targets, push an edge otherwise.
`transition.guard`/`cond`/`actions` are read per pushed edge; the reads cannot
throw here (a `null` transition already threw at `transition.target`) but are
kept dynamic. -/
def emitTargetsJ (dateTok : String) (idSet : List String)
    (sourceId statePath eventType : String) (transition : JValue) :
    List JValue → ImpState → Except String ImpState
  | [], st => .ok st
  | target :: rest, st =>
    match resolveTargetJ target statePath st.pathToId idSet with
    | .error e => .error e
    | .ok resolvedTarget =>
      match resolvedTarget with
      | none => emitTargetsJ dateTok idSet sourceId statePath eventType transition rest st
      | some resolved =>
        if resolved = "" then
          emitTargetsJ dateTok idSet sourceId statePath eventType transition rest st
        else
          match jMember (some transition) "guard", jMember (some transition) "cond",
              jMember (some transition) "actions" with
          | .error e, _, _ => .error e
          | .ok _, .error e, _ => .error e
          | .ok _, .ok _, .error e => .error e
          | .ok g, .ok c, .ok a =>
            let ec := createId "edge" dateTok st.counter
            emitTargetsJ dateTok idSet sourceId statePath eventType transition rest
              { st with
                  edges := st.edges ++
                    [{ id := ec.1
                       type := "transitionEdge"
                       source := sourceId
                       target := resolved
                       markerEnd := some arrowClosed
                       data :=
                         ⟨eventType, jStrProj (jCoalesce g (jCoalesce c (some (.str "")))),
                           readActionsJ (jCoalesce a (some (.arr [])))⟩ }]
                  counter := ec.2 }

/-- The `for (const transition of transitions)` loop: `transition.target`
throws on a `null` transition entry; a non-array falsy target yields no
targets, a truthy non-array target a singleton. -/
def emitTransitionsJ (dateTok : String) (idSet : List String)
    (sourceId statePath eventType : String) :
    List JValue → ImpState → Except String ImpState
  | [], st => .ok st
  | transition :: rest, st =>
    match jMember (some transition) "target" with
    | .error e => .error e
    | .ok tv =>
      let targets : List JValue :=
        match tv with
        | some (.arr es) => es
        | some jv => if jTruthy (some jv) then [jv] else []
        | none => []
      match emitTargetsJ dateTok idSet sourceId statePath eventType transition
          targets st with
      | .error e => .error e
      | .ok st1 => emitTransitionsJ dateTok idSet sourceId statePath eventType rest st1

/-- The `for (const [eventType, targetConfig] of Object.entries(on))` loop. -/
def emitEventsJ (dateTok : String) (idSet : List String) (sourceId statePath : String) :
    List (String × JValue) → ImpState → Except String ImpState
  | [], st => .ok st
  | (eventType, targetConfig) :: rest, st =>
    match emitTransitionsJ dateTok idSet sourceId statePath eventType
        (normalizeTransitionsJ targetConfig) st with
    | .error e => .error e
    | .ok st1 => emitEventsJ dateTok idSet sourceId statePath rest st1

/-- The `walkTransitions` recursion at the dynamic level: an unresolvable (or
falsy) source path skips the whole state, children included (`continue`);
otherwise the initial marker, the `on` object's edges (`config.on ?? {}`),
then the children.  `config.initial` is read only past the source check, so
the `null`-config throw here is unreachable — `walkStates` threw first — but
the access is kept dynamic. -/
def walkTransitionsJF (dateTok : String) (idSet : List String) :
    Nat → Option JValue → String → ImpState → Option (Except String ImpState)
  | 0, _, _, _ => none
  | Nat.succ f, states, parentPath, st =>
    if jTruthy states = false then some (Except.ok st)
    else
      match jEntries states with
      | .error e => some (.error e)
      | .ok entries =>
        entries.foldl
          (fun acc kc =>
            match acc with
            | none => none
            | some (Except.error e) => some (Except.error e)
            | some (Except.ok stAcc) =>
              let statePath :=
                if parentPath = "" then kc.1 else parentPath ++ "." ++ kc.1
              match recGet stAcc.pathToId statePath with
              | none => some (Except.ok stAcc)
              | some sourceId =>
                if sourceId = "" then some (Except.ok stAcc)
                else
                  match jMember (some kc.2) "initial" with
                  | .error e => some (.error e)
                  | .ok cini =>
                    let st1 :=
                      match cini with
                      | some ik =>
                        if jTruthy (some ik) then
                          createInitialMarkerJ dateTok (some sourceId) statePath ik stAcc
                        else stAcc
                      | none => stAcc
                    match jMember (some kc.2) "on" with
                    | .error e => some (.error e)
                    | .ok conv =>
                      match jEntries (jCoalesce conv (some (.obj []))) with
                      | .error e => some (.error e)
                      | .ok onEntries =>
                        match emitEventsJ dateTok idSet sourceId statePath
                            onEntries st1 with
                        | .error e => some (.error e)
                        | .ok st2 =>
                          match jMember (some kc.2) "states" with
                          | .error e => some (.error e)
                          | .ok csts =>
                            walkTransitionsJF dateTok idSet f csts statePath st2)
          (some (Except.ok st))

/-- `importMachineFromXState` on the raw `JSON.parse` result (`none` = the
parse threw, and the exception propagates out of the import call), over the
full dynamic domain. -/
def importMachineFromXStateJ (fuel : Nat) (parsed : Option JValue)
    (dateTok : String) : Option (Except String MachineDocument) :=
  match parsed with
  | none => some (Except.error "SyntaxError: the input is not parseable as JSON")
  | some p =>
    match jMember (some p) "meta" with
    | .error e => some (.error e)
    | .ok pmeta =>
      match jMemberOpt pmeta "fluxState" with
      | .error e => some (.error e)
      | .ok embedded =>
        if isMachineDocumentJ embedded then some (normalizeImportedMachineJ embedded)
        else
          match jMember (some p) "id" with
          | .error e => some (.error e)
          | .ok pid =>
            let machineId := jStrOr pid "importedMachine"
            match jMember (some p) "states" with
            | .error e => some (.error e)
            | .ok pstates =>
              match walkStatesJF dateTok fuel pstates none "" ⟨[], [], [], [], 0⟩ with
              | none => none
              | some (.error e) => some (.error e)
              | some (.ok st1) =>
                let idSet := st1.nodes.map (·.id)
                match jMember (some p) "initial" with
                | .error e => some (.error e)
                | .ok pinit =>
                  let st2 :=
                    match pinit with
                    | some ik =>
                      if jTruthy (some ik) then createInitialMarkerJ dateTok none "" ik st1
                      else st1
                    | none => st1
                  match walkTransitionsJF dateTok idSet fuel pstates "" st2 with
                  | none => none
                  | some (.error e) => some (.error e)
                  | some (.ok st3) =>
                    some (Except.ok (normalizeImportedMachine
                      ⟨1, machineId, st3.nodes, st3.edges, ⟨0, 0, 1⟩⟩))

/-! ## The bundled example machines (`src/examples/machines.ts`) -/

/-- The `node(...)` helper of `machines.ts`. -/
def mkNode (id label : String) (kind : NodeKind) (x y : Int)
    (parentNode : Option String := none) (style : Option NodeStyle := none) :
    StateNode :=
  { id := id
    type := "stateNode"
    position := ⟨x, y⟩
    parentNode := parentNode
    extent := if parentNode.isSome then some "parent" else none
    style := style
    data := ⟨label, kind⟩ }

/-- The `edge(...)` helper of `machines.ts`. -/
def mkEdge (id source target event : String) (guard : String := "")
    (actions : List String := []) : TransitionEdge :=
  { id := id
    type := "transitionEdge"
    source := source
    target := target
    markerEnd := some arrowClosed
    data := ⟨event, guard, actions⟩ }

def trafficLightMachine : MachineDocument :=
  { version := 1
    machineId := "trafficLight"
    viewport := ⟨0, 0, 1⟩
    nodes :=
      [mkNode "tl_init" "Initial" NodeKind.initial 40 165,
       mkNode "red" "Red" NodeKind.atomic 220 140,
       mkNode "green" "Green" NodeKind.atomic 460 140,
       mkNode "yellow" "Yellow" NodeKind.atomic 700 140]
    edges :=
      [mkEdge "e_tl_init_red" "tl_init" "red" "INIT",
       mkEdge "e_tl_red_green" "red" "green" "TIMER" "" ["startGoTimer"],
       mkEdge "e_tl_green_yellow" "green" "yellow" "TIMER" "" ["warnDrivers"],
       mkEdge "e_tl_yellow_red" "yellow" "red" "TIMER" "" ["stopTraffic"]] }

def checkoutMachine : MachineDocument :=
  { version := 1
    machineId := "checkoutFlow"
    viewport := ⟨0, 0, 1⟩
    nodes :=
      [mkNode "co_init" "Initial" NodeKind.initial 30 210,
       mkNode "cart" "Cart" NodeKind.atomic 190 180,
       mkNode "review" "Review (Parallel)" NodeKind.parallel 420 80 none
         (some ⟨520, 320⟩),
       mkNode "review_shipping" "Shipping" NodeKind.atomic 40 70 (some "review"),
       mkNode "review_payment" "Payment" NodeKind.atomic 260 70 (some "review"),
       mkNode "review_init_shipping" "Initial" NodeKind.initial 18 22
         (some "review"),
       mkNode "confirm" "Confirm" NodeKind.atomic 1020 180,
       mkNode "done" "Done" NodeKind.final 1240 180]
    edges :=
      [mkEdge "e_co_init_cart" "co_init" "cart" "INIT",
       mkEdge "e_cart_review" "cart" "review" "BEGIN_CHECKOUT" "" ["lockInventory"],
       mkEdge "e_review_init_shipping" "review_init_shipping" "review_shipping"
         "INIT",
       mkEdge "e_shipping_payment" "review_shipping" "review_payment" "SHIPPING_OK",
       mkEdge "e_payment_confirm" "review_payment" "confirm" "PAYMENT_OK" "true"
         ["capturePayment"],
       mkEdge "e_confirm_done" "confirm" "done" "PLACE_ORDER" "" ["emitOrderPlaced"]] }

/-! ## Small documents used as concrete inputs in the theorems below -/

/-- A lone root state of kind `parallel` with no children. -/
def parallelLeafDoc : MachineDocument :=
  { version := 1
    machineId := "parallelLeaf"
    viewport := ⟨0, 0, 1⟩
    nodes := [mkNode "p" "P" NodeKind.parallel 0 0]
    edges := [] }

/-- A single node whose `parentNode` points at itself: the `getAncestors`
`while` loop never terminates on it. -/
def selfParentDoc : MachineDocument :=
  { version := 1
    machineId := "selfParent"
    viewport := ⟨0, 0, 1⟩
    nodes := [mkNode "a" "A" NodeKind.atomic 0 0 (some "a")]
    edges := [] }

/-- An otherwise well-formed document whose `machineId` is the empty string. -/
def emptyIdDoc : MachineDocument :=
  { version := 1
    machineId := ""
    viewport := ⟨0, 0, 1⟩
    nodes := [mkNode "solo" "Solo" NodeKind.atomic 0 0]
    edges := [] }

/-- A compound root state with two children and no initial marker: the entry
resolver falls back to the first child, the exporter emits no `initial`. -/
def noMarkerDoc : MachineDocument :=
  { version := 1
    machineId := "noMarker"
    viewport := ⟨0, 0, 1⟩
    nodes :=
      [mkNode "p" "P" NodeKind.atomic 0 0,
       mkNode "a" "A" NodeKind.atomic 0 0 (some "p"),
       mkNode "b" "B" NodeKind.atomic 0 0 (some "p")]
    edges := [] }

/-- A compound root state whose initial marker designates the second child. -/
def markerDoc : MachineDocument :=
  { version := 1
    machineId := "marker"
    viewport := ⟨0, 0, 1⟩
    nodes :=
      [mkNode "p" "P" NodeKind.atomic 0 0,
       mkNode "i" "Initial" NodeKind.initial 0 0 (some "p"),
       mkNode "a" "A" NodeKind.atomic 0 0 (some "p"),
       mkNode "b" "B" NodeKind.atomic 0 0 (some "p")]
    edges := [mkEdge "e_i_b" "i" "b" "INIT"] }

/-- Siblings labelled `a`, `a`, `a 2`: the second `a` and the `a 2` both
receive the key `a_2`. -/
def keyClashDoc : MachineDocument :=
  { version := 1
    machineId := "keyClash"
    viewport := ⟨0, 0, 1⟩
    nodes :=
      [mkNode "n1" "a" NodeKind.atomic 0 0,
       mkNode "n2" "a" NodeKind.atomic 0 0,
       mkNode "n3" "a 2" NodeKind.atomic 0 0]
    edges := [] }

/-- One edge whose event name carries surrounding whitespace: listed by
`getAvailableEvents` as `GO`, never fired by `triggerSimulationEvent("GO")`. -/
def paddedEventDoc : MachineDocument :=
  { version := 1
    machineId := "paddedEvent"
    viewport := ⟨0, 0, 1⟩
    nodes :=
      [mkNode "a" "A" NodeKind.atomic 0 0,
       mkNode "b" "B" NodeKind.atomic 0 0]
    edges := [mkEdge "e_a_b" "a" "b" " GO "] }

/-! ## Termination of `enterNode`

Every id an `enterNode` recursion can reach is a node id or an edge target, the
`seen` set grows by one such id per nested call, so the recursion depth is
bounded and the fuelled embedding is independent of the fuel beyond
`enterFuel`. -/

/-- The ids recursive `enterNode` calls can be made on. -/
def entrySeeds (m : MachineDocument) : List String :=
  m.nodes.map (·.id) ++ m.edges.map (·.target)

/-- How many candidate ids are not yet in the visited set. -/
def remaining (cand seen : List String) : Nat :=
  (cand.filter (fun x => !seen.contains x)).length

/-! ## Spec-side relations and concrete example values

Declarative relations that state what the claims assert, rank functions
standing for the finiteness invariants, and named concrete values the
witnesses and counterexamples evaluate. -/

/-- Chains the `getAncestors` walk produces: follow `parentNode` pointers from
the leaf until the current value is absent or empty. -/
inductive AncChainFrom (m : MachineDocument) : Option String → List String → Prop
  | stop {cur : Option String} : strTruthy cur = false → AncChainFrom m cur []
  | step {c : String} {rest : List String} : c ≠ "" →
      AncChainFrom m (parentOf m c) rest → AncChainFrom m (some c) (c :: rest)

/-- "At each ancestor takes the first outgoing edge, in declaration order,
whose event equals the event type and whose guard evaluates true." -/
def chainFirstMatch (host : HostEval) (m : MachineDocument) (eventType : String)
    (chain : List String) : Option TransitionEdge :=
  chain.findSome? (fun src => (edgesOf m src).find? (edgeMatches host eventType))

/-- The claim's leaf scan, relative to the full input configuration `cfg0`:
first leaf whose chain matches fires, the whole configuration is replaced by
`enterNode` of the edge's target; no match returns `cfg0` and no edge. -/
inductive TrigAux (host : HostEval) (m : MachineDocument) (eventType : String)
    (cfg0 : List String) : List String → List String × Option String → Prop
  | nil : TrigAux host m eventType cfg0 [] (cfg0, none)
  | fire {l : String} {rest chain : List String} {e : TransitionEdge} :
      AncChainFrom m (some l) chain →
      chainFirstMatch host m eventType chain = some e →
      TrigAux host m eventType cfg0 (l :: rest) (enterNode m e.target, some e.id)
  | skip {l : String} {rest chain : List String} {r : List String × Option String} :
      AncChainFrom m (some l) chain →
      chainFirstMatch host m eventType chain = none →
      TrigAux host m eventType cfg0 rest r →
      TrigAux host m eventType cfg0 (l :: rest) r

/-- The claimed input/output relation of `triggerSimulationEvent`. -/
def TriggerSpec (host : HostEval) (m : MachineDocument) (cfg : List String)
    (eventType : String) (r : List String × Option String) : Prop :=
  TrigAux host m eventType cfg cfg r

/-- Decreasing rank along truthy `parentNode` pointers: the shallow form of
"the `parentId` relation over nodes forms a forest; a node's ancestor chain is
finite" (§3 invariant 1 of the spec). -/
def ParentRankOk (m : MachineDocument) (rank : String → Nat) : Prop :=
  ∀ c p, parentOf m c = some p → p ≠ "" → rank p < rank c

/-- A fuel sufficient for every ancestor walk out of `cfg`. -/
def trigFuel (rank : String → Nat) (cfg : List String) : Nat :=
  (cfg.map rank).foldr max 0 + 1

/-- The source's `triggerSimulationEvent` call on these arguments never
returns: the embedded loop reports fuel exhaustion at every fuel, for every
host guard evaluator. -/
def TriggerDivergesOn (m : MachineDocument) (cfg : List String)
    (eventType : String) : Prop :=
  ∀ (host : HostEval) (fuel : Nat),
    triggerSimulationEventF host fuel m cfg eventType = none

/-- The amended well-formedness: ids unique and non-empty, every
initial marker's first edge leads to an existing node, every parallel node —
not only every compound node — has a non-marker child, and all entry steps
(marker edges, initial selections, region entry) decrease a rank, which is the
finite form of "marker/initial-target chains are acyclic". -/
def EntryWF (m : MachineDocument) (rank : String → Nat) : Prop :=
  (m.nodes.map (·.id)).Nodup ∧
  (∀ n ∈ m.nodes, n.id ≠ "") ∧
  (∀ n ∈ m.nodes, n.data.kind = NodeKind.initial →
    (match (edgesOf m n.id).head? with
     | some e => !decide (e.target = "") && (nodeById m e.target).isSome &&
         decide (rank e.target < rank n.id)
     | none => false) = true) ∧
  (∀ n ∈ m.nodes, n.data.kind = NodeKind.parallel →
    (nonMarkerChildren m (some n.id)).isEmpty = false ∧
    ∀ c ∈ nonMarkerChildren m (some n.id), rank c.id < rank n.id) ∧
  (∀ n ∈ m.nodes, n.data.kind ≠ NodeKind.initial →
    n.data.kind ≠ NodeKind.parallel →
    (nonMarkerChildren m (some n.id)).isEmpty = false →
    (match findInitialTarget m (some n.id) with
     | some t => !decide (t = "") && (nodeById m t).isSome &&
         decide (rank t < rank n.id)
     | none =>
       (match (nonMarkerChildren m (some n.id)).head? with
        | some c => decide (rank c.id < rank n.id)
        | none => true)) = true)

/-- What the configuration may contain: an existing node of kind atomic or
final with no non-marker children. -/
def IsEntryLeaf (m : MachineDocument) (x : String) : Prop :=
  ∃ nd, nodeById m x = some nd ∧
    (nd.data.kind = NodeKind.atomic ∨ nd.data.kind = NodeKind.final) ∧
    (nonMarkerChildren m (some x)).isEmpty = true

/-- The claim's own well-formedness hypotheses, as stated: `parentId` is a
forest (rank-decreasing parent links), at least one non-marker root state,
every compound (non-parallel, with children) node has a non-marker child, and
marker/initial-target chains are acyclic (rank-decreasing marker edges and
initial selections).  Note no condition on `parallel` nodes. -/
def ClaimedWellFormed (m : MachineDocument) : Prop :=
  (∃ rank : String → Nat, ∀ n ∈ m.nodes, ∀ p ∈ m.nodes,
    n.parentNode = some p.id → rank p.id < rank n.id) ∧
  (∃ n ∈ m.nodes, n.parentNode = none ∧ n.data.kind ≠ NodeKind.initial) ∧
  (∀ n ∈ m.nodes, n.data.kind ≠ NodeKind.initial →
    n.data.kind ≠ NodeKind.parallel →
    (childrenOf m (some n.id)).isEmpty = false →
    (nonMarkerChildren m (some n.id)).isEmpty = false) ∧
  (∃ rank : String → Nat,
    (∀ n ∈ m.nodes, n.data.kind = NodeKind.initial →
      ∀ e ∈ edgesOf m n.id, rank e.target < rank n.id) ∧
    (∀ n ∈ m.nodes, n.data.kind ≠ NodeKind.initial →
      n.data.kind ≠ NodeKind.parallel →
      (match findInitialTarget m (some n.id) with
       | some t => decide (rank t < rank n.id)
       | none => true) = true))

def charsVal10 (cs : List Char) : Nat :=
  cs.foldl (fun a c => a * 10 + (c.toNat - 48)) 0

/-- The claim's description of the assignment: each non-marker child is keyed
by its slug, the k-th occurrence of the same base suffixed `_k`; each child is
paired with its key in order. -/
def keyedChildren : List StateNode → List (String × Nat) →
    List (StateNode × String)
  | [], _ => []
  | c :: rest, counts =>
    let base := slugify c.data.label
    let k := (recGet counts base).getD 0
    (c, occKey base k) :: keyedChildren rest (recSet counts base (k + 1))

def defaultXState : XStateState := XStateState.mk none none none [] [] none

/-- The exported tree of `markerDoc` (a compound state whose marker picks the
second child) and its `p` entry. -/
def markerExport : List (String × XStateState) × List (String × String) :=
  (buildStatesForParentF markerDoc 3 none).getD ([], [])

def markerPCfg : XStateState :=
  (recGet markerExport.1 "p").getD defaultXState

/-- The exported tree of `noMarkerDoc` (a compound state with two children and
no initial marker) and its `p` entry. -/
def noMarkerExport : List (String × XStateState) × List (String × String) :=
  (buildStatesForParentF noMarkerDoc 3 none).getD ([], [])

def noMarkerPCfg : XStateState :=
  (recGet noMarkerExport.1 "p").getD defaultXState

/-- The exported root of the traffic-light example. -/
def trafficRoot : XStateState :=
  (buildRootStateF 3 trafficLightMachine).getD defaultXState

/-- The exported root of the empty-machine-id document. -/
def emptyIdRoot : XStateState :=
  (buildRootStateF 3 emptyIdDoc).getD defaultXState

lemma mem_of_head? {α : Type} {l : List α} {a : α} (h : l.head? = some a) :
    a ∈ l := by
  cases l <;> simp_all

lemma mem_nodes_of_childrenOf {m : MachineDocument} {p : Option String}
    {n : StateNode} (h : n ∈ childrenOf m p) : n ∈ m.nodes :=
  (List.mem_filter.mp h).1

lemma mem_edges_of_edgesOf {m : MachineDocument} {s : String}
    {e : TransitionEdge} (h : e ∈ edgesOf m s) : e ∈ m.edges :=
  (List.mem_filter.mp h).1

lemma node_id_mem_seeds {m : MachineDocument} {n : StateNode}
    (h : n ∈ m.nodes) : n.id ∈ entrySeeds m := by
  exact List.mem_append.mpr (Or.inl (List.mem_map.mpr ⟨n, h, rfl⟩))

lemma edge_target_mem_seeds {m : MachineDocument} {e : TransitionEdge}
    (h : e ∈ m.edges) : e.target ∈ entrySeeds m := by
  exact List.mem_append.mpr (Or.inr (List.mem_map.mpr ⟨e, h, rfl⟩))

lemma findInitialTarget_mem_seeds {m : MachineDocument} {p : Option String}
    {t : String} (h : findInitialTarget m p = some t) : t ∈ entrySeeds m := by
  simp only [findInitialTarget] at h
  split at h
  · rename_i marker _
    split at h
    · rename_i e he
      obtain rfl : e.target = t := by simpa using h
      exact edge_target_mem_seeds (mem_edges_of_edgesOf (mem_of_head? he))
    · obtain ⟨n, hn, rfl⟩ := Option.map_eq_some'.mp h
      exact node_id_mem_seeds
        (mem_nodes_of_childrenOf (List.mem_of_find?_eq_some hn))
  · obtain ⟨n, hn, rfl⟩ := Option.map_eq_some'.mp h
    exact node_id_mem_seeds
      (mem_nodes_of_childrenOf (List.mem_of_find?_eq_some hn))

lemma remaining_le_of_cons (cand seen : List String) (a : String) :
    remaining cand (a :: seen) ≤ remaining cand seen := by
  refine (List.monotone_filter_right cand ?_).length_le
  intro x hx
  simp only [List.contains_cons, Bool.not_or] at hx ⊢
  simp_all

lemma remaining_lt_of_cons {cand seen : List String} {a : String}
    (ha : a ∈ cand) (hns : ¬ seen.contains a = true) :
    remaining cand (a :: seen) < remaining cand seen := by
  induction cand with
  | nil => cases ha
  | cons c rest ih =>
    by_cases hc : c = a
    · subst hc
      have h1 : ((c :: seen).contains c) = true := by simp
      simp only [remaining, List.filter_cons, h1, Bool.not_true, hns,
        Bool.not_false]
      calc (rest.filter (fun x => !(c :: seen).contains x)).length
          ≤ (rest.filter (fun x => !seen.contains x)).length :=
            remaining_le_of_cons rest seen c
        _ < (rest.filter (fun x => !seen.contains x)).length + 1 :=
            Nat.lt_succ_self _
    · have hmem : a ∈ rest := by
        rcases List.mem_cons.mp ha with h | h
        · exact absurd h.symm hc
        · exact h
      have hctn : ((a :: seen).contains c) = (seen.contains c) := by
        simp only [List.contains_cons]
        have : (c == a) = false := by simpa using hc
        simp [this]
      have := ih hmem
      simp only [remaining, List.filter_cons, hctn] at *
      cases hsc : seen.contains c <;> simp_all [remaining]

lemma foldl_enter_congr (f g : StateNode → List String)
    (children : List StateNode) (h : ∀ c ∈ children, f c = g c) :
    ∀ acc, children.foldl (fun acc c => (f c).foldl setAdd acc) acc =
      children.foldl (fun acc c => (g c).foldl setAdd acc) acc := by
  induction children with
  | nil => intro acc; rfl
  | cons c rest ih =>
    intro acc
    rw [List.foldl_cons, List.foldl_cons, h c (List.mem_cons_self c rest),
      ih (fun x hx => h x (List.mem_cons_of_mem c hx))]

/-- Fuel-independence of `enterNode`: any two fuels exceeding the number of
unvisited candidate ids compute the same entry set — the `seen`-set argument
for termination of the source's unbounded recursion. -/
lemma enterNodeF_congr (m : MachineDocument) (cand : List String)
    (hcl : ∀ x, x ∈ entrySeeds m → x ∈ cand) :
    ∀ (f₁ f₂ : Nat) (seen : List String) (i : String), i ∈ cand →
      remaining cand seen < f₁ → remaining cand seen < f₂ →
      enterNodeF m f₁ seen i = enterNodeF m f₂ seen i := by
  intro f₁
  induction f₁ with
  | zero => intro f₂ seen i _ h1 _; exact absurd h1 (Nat.not_lt_zero _)
  | succ a ih =>
    intro f₂ seen i hi h1 h2
    cases f₂ with
    | zero => exact absurd h2 (Nat.not_lt_zero _)
    | succ b =>
      have hstep : ∀ t, t ∈ cand →
          ¬ seen.contains i = true →
          enterNodeF m a (i :: seen) t = enterNodeF m b (i :: seen) t := by
        intro t ht hns
        have hdec := remaining_lt_of_cons hi hns
        exact ih b (i :: seen) t ht (by omega) (by omega)
      simp only [enterNodeF]
      cases hc : seen.contains i
      · simp only [Bool.false_eq_true, if_false]
        cases hn : nodeById m i with
        | none => rfl
        | some node =>
          by_cases hk : node.data.kind = NodeKind.initial
          · simp only [hk, if_true]
            cases he : (edgesOf m node.id).head? with
            | none => rfl
            | some e =>
              by_cases ht : e.target = ""
              · simp [ht]
              · simp only [ht, if_false]
                exact hstep e.target
                  (hcl _ (edge_target_mem_seeds
                    (mem_edges_of_edgesOf (mem_of_head? he))))
                  (by simpa using hc)
          · simp only [hk, if_false]
            cases hch : (nonMarkerChildren m (some node.id)).isEmpty
            · simp only [hch, Bool.false_eq_true, if_false]
              by_cases hpar : node.data.kind = NodeKind.parallel
              · simp only [hpar, if_true]
                refine foldl_enter_congr _ _ _ ?_ []
                intro c hcmem
                exact hstep c.id
                  (hcl _ (node_id_mem_seeds
                    (mem_nodes_of_childrenOf (List.mem_filter.mp hcmem).1)))
                  (by simpa using hc)
              · simp only [hpar, if_false]
                cases hfi : findInitialTarget m (some node.id) with
                | some t =>
                  by_cases ht : t = ""
                  · simp [ht]
                  · simp only [ht, if_false]
                    exact hstep t (hcl _ (findInitialTarget_mem_seeds hfi))
                      (by simpa using hc)
                | none =>
                  cases hh : (nonMarkerChildren m (some node.id)).head? with
                  | none => rfl
                  | some c =>
                    by_cases hcid : c.id = ""
                    · simp [hcid]
                    · simp only [hcid, if_false]
                      exact hstep c.id
                        (hcl _ (node_id_mem_seeds
                          (mem_nodes_of_childrenOf
                            (List.mem_filter.mp (mem_of_head? hh)).1)))
                        (by simpa using hc)
            · simp [hch]
      · simp

/-- Beyond `enterFuel` the fuelled `enterNode` is constant, i.e. the source's
recursion terminates with the wrapper's value. -/
lemma enterNodeF_eq_enterNode (m : MachineDocument) (i : String) (f : Nat)
    (hf : enterFuel m i ≤ f) : enterNodeF m f [] i = enterNode m i := by
  have hcl : ∀ x, x ∈ entrySeeds m → x ∈ candIds m i := by
    intro x hx
    exact List.mem_dedup.mpr (List.mem_cons_of_mem _ hx)
  have hid : i ∈ candIds m i := List.mem_dedup.mpr (List.mem_cons_self _ _)
  have hrem : remaining (candIds m i) [] < enterFuel m i := by
    have : remaining (candIds m i) [] ≤ (candIds m i).length := by
      simp only [remaining]
      exact List.length_filter_le _ _
    simp only [enterFuel]; omega
  exact enterNodeF_congr m (candIds m i) hcl f (enterFuel m i) [] i hid
    (by omega) hrem

/-! ## The claimed behaviour of `triggerSimulationEvent`

The claim's description is stated declaratively: an ancestor chain per leaf
(`AncChainFrom` is what "walk the ancestor chain from the leaf upward" builds),
a first match over that chain, and the first-leaf-wins scan with global
replacement.  The fuelled embedding is then proved to refine it whenever the
source call returns. -/

lemma ancLoop_some_chain (m : MachineDocument) :
    ∀ (fuel : Nat) (cur : Option String) (acc l : List String),
      ancLoop m fuel cur acc = some l →
      ∃ chain, l = acc ++ chain ∧ AncChainFrom m cur chain := by
  intro fuel
  induction fuel with
  | zero =>
    intro cur acc l h
    cases cur with
    | none =>
      refine ⟨[], by simpa [ancLoop] using h.symm, AncChainFrom.stop rfl⟩
    | some c =>
      by_cases hcz : c = ""
      · subst hcz
        refine ⟨[], ?_, AncChainFrom.stop rfl⟩
        simpa [ancLoop] using h.symm
      · simp [ancLoop, hcz] at h
  | succ f ih =>
    intro cur acc l h
    cases cur with
    | none =>
      refine ⟨[], by simpa [ancLoop] using h.symm, AncChainFrom.stop rfl⟩
    | some c =>
      by_cases hcz : c = ""
      · subst hcz
        refine ⟨[], ?_, AncChainFrom.stop rfl⟩
        simpa [ancLoop] using h.symm
      · simp only [ancLoop, hcz, if_false] at h
        obtain ⟨chain, hl, hch⟩ := ih (parentOf m c) (acc ++ [c]) l h
        exact ⟨c :: chain, by simpa using hl, AncChainFrom.step hcz hch⟩

lemma getAncestorsF_some_chain {fuel : Nat} {m : MachineDocument}
    {leaf : String} {l : List String}
    (h : getAncestorsF fuel m leaf = some l) : AncChainFrom m (some leaf) l := by
  obtain ⟨chain, hl, hch⟩ := ancLoop_some_chain m fuel (some leaf) [] l h
  simpa [hl] using hch

lemma findInChain_eq_chainFirstMatch (host : HostEval) (m : MachineDocument)
    (eventType : String) :
    ∀ chain, findInChain host m eventType chain =
      chainFirstMatch host m eventType chain := by
  intro chain
  induction chain with
  | nil => rfl
  | cons src rest ih =>
    simp only [findInChain, chainFirstMatch, List.findSome?_cons]
    cases (edgesOf m src).find? (edgeMatches host eventType) with
    | none => simpa [chainFirstMatch] using ih
    | some e => rfl

lemma trigLoop_spec (host : HostEval) (fuel : Nat) (m : MachineDocument)
    (cfg : List String) (eventType : String) :
    ∀ (rest : List String) (r : List String × Option String),
      trigLoop host fuel m cfg eventType rest = some r →
      TrigAux host m eventType cfg rest r := by
  intro rest
  induction rest with
  | nil =>
    intro r h
    obtain rfl : (cfg, none) = r := by simpa [trigLoop] using h
    exact TrigAux.nil
  | cons leaf rest' ih =>
    intro r h
    simp only [trigLoop] at h
    cases hf : findTransitionForEventF host fuel m leaf eventType with
    | none => rw [hf] at h; cases h
    | some o =>
      rw [hf] at h
      obtain ⟨chain, hchain, ho⟩ :
          ∃ chain, getAncestorsF fuel m leaf = some chain ∧
            findInChain host m eventType chain = o := by
        simpa [findTransitionForEventF, Option.map_eq_some'] using hf
      have hrel := getAncestorsF_some_chain hchain
      have hmatch : chainFirstMatch host m eventType chain = o := by
        rw [← findInChain_eq_chainFirstMatch, ho]
      cases o with
      | none => exact TrigAux.skip hrel hmatch (ih r h)
      | some t =>
        obtain rfl : (enterNode m t.target, some t.id) = r := by simpa using h
        exact TrigAux.fire hrel hmatch

lemma ancLoop_total {m : MachineDocument} {rank : String → Nat}
    (hr : ParentRankOk m rank) :
    ∀ (fuel : Nat) (c : String) (acc : List String), rank c < fuel →
      ∃ l, ancLoop m fuel (some c) acc = some l := by
  intro fuel
  induction fuel with
  | zero => intro c acc h; exact absurd h (Nat.not_lt_zero _)
  | succ f ih =>
    intro c acc h
    by_cases hcz : c = ""
    · exact ⟨acc, by simp [ancLoop, hcz]⟩
    · simp only [ancLoop, hcz, if_false]
      cases hp : parentOf m c with
      | none => exact ⟨acc ++ [c], by cases f <;> simp [ancLoop]⟩
      | some p =>
        by_cases hpz : p = ""
        · exact ⟨acc ++ [c], by cases f <;> simp [ancLoop, hpz]⟩
        · have hlt : rank p < rank c := hr c p hp hpz
          exact ih p (acc ++ [c]) (by omega)

lemma le_foldr_max : ∀ (l : List Nat) (x : Nat), x ∈ l → x ≤ l.foldr max 0 := by
  intro l
  induction l with
  | nil => intro x h; cases h
  | cons a t ih =>
    intro x h
    rcases List.mem_cons.mp h with rfl | h
    · exact Nat.le_max_left _ _
    · exact Nat.le_trans (ih x h) (Nat.le_max_right _ _)

lemma trigLoop_total (host : HostEval) {m : MachineDocument}
    {rank : String → Nat} (hr : ParentRankOk m rank) (cfg : List String)
    (eventType : String) (fuel : Nat) :
    ∀ (rest : List String), (∀ l ∈ rest, rank l < fuel) →
      ∃ r, trigLoop host fuel m cfg eventType rest = some r := by
  intro rest
  induction rest with
  | nil => intro _; exact ⟨(cfg, none), rfl⟩
  | cons leaf rest' ih =>
    intro hb
    obtain ⟨l, hl⟩ :=
      ancLoop_total hr fuel leaf [] (hb leaf (List.mem_cons_self _ _))
    have hft : findTransitionForEventF host fuel m leaf eventType =
        some (findInChain host m eventType l) := by
      simp [findTransitionForEventF, getAncestorsF, hl]
    cases hfc : findInChain host m eventType l with
    | none =>
      obtain ⟨r, hrr⟩ := ih (fun x hx => hb x (List.mem_cons_of_mem _ hx))
      exact ⟨r, by simp only [trigLoop, hft, hfc]; exact hrr⟩
    | some t =>
      exact ⟨(enterNode m t.target, some t.id), by
        simp only [trigLoop, hft, hfc]⟩

/-! ## Facts about `nodeById` -/

lemma mem_of_getLast?' {α : Type} {l : List α} {a : α}
    (h : l.getLast? = some a) : a ∈ l := by
  obtain ⟨hne, rfl⟩ := List.mem_getLast?_eq_getLast (Option.mem_def.mpr h)
  exact List.getLast_mem hne

lemma nodeById_mem {m : MachineDocument} {i : String} {n : StateNode}
    (h : nodeById m i = some n) : n ∈ m.nodes :=
  (List.mem_filter.mp (mem_of_getLast?' h)).1

lemma nodeById_id {m : MachineDocument} {i : String} {n : StateNode}
    (h : nodeById m i = some n) : n.id = i := by
  have := (List.mem_filter.mp (mem_of_getLast?' h)).2
  simpa using this

lemma filter_id_getLast_of_nodup :
    ∀ (l : List StateNode), (l.map (·.id)).Nodup → ∀ n ∈ l,
      (l.filter (fun x => x.id = n.id)).getLast? = some n := by
  intro l
  induction l with
  | nil => intro _ n hn; cases hn
  | cons a rest ih =>
    intro hnd n hn
    simp only [List.map_cons, List.nodup_cons] at hnd
    rcases List.mem_cons.mp hn with rfl | hmem
    · have hrest : rest.filter (fun x => decide (x.id = n.id)) = [] := by
        apply List.filter_eq_nil_iff.mpr
        intro x hx hxid
        exact hnd.1 (List.mem_map.mpr ⟨x, hx, by simpa using hxid.symm⟩)
      simp [List.filter_cons, hrest]
    · have hne : ¬ a.id = n.id := by
        intro hEq
        exact hnd.1 (List.mem_map.mpr ⟨n, hmem, hEq.symm⟩)
      have := ih hnd.2 n hmem
      simp only [List.filter_cons, hne, decide_False]
      simpa using this

lemma nodeById_of_mem_nodup {m : MachineDocument}
    (hnd : (m.nodes.map (·.id)).Nodup) {n : StateNode} (hn : n ∈ m.nodes) :
    nodeById m n.id = some n :=
  filter_id_getLast_of_nodup m.nodes hnd n hn

/-! ## Claim C2: the event-resolution contract of `triggerSimulationEvent` -/

/-- C2.  `triggerSimulationEvent` scans the configuration's leaves in order;
per leaf it walks the ancestor chain upward and takes the first declared edge
whose event matches and whose guard is true; a match replaces the entire
configuration by `enterNode(edge.target)` and reports the edge id; otherwise
the input configuration is returned with no fired edge.  Stated as: whenever
the source call returns (any fuel), its value satisfies `TriggerSpec`, and
under the data model's finite-ancestor-chain invariant (§3) it does return. -/
theorem c2_trigger_resolution (host : HostEval) (m : MachineDocument)
    (cfg : List String) (eventType : String) :
    (∀ fuel r, triggerSimulationEventF host fuel m cfg eventType = some r →
      TriggerSpec host m cfg eventType r) ∧
    (∀ rank : String → Nat, ParentRankOk m rank →
      ∃ r, triggerSimulationEventF host (trigFuel rank cfg) m cfg eventType =
          some r ∧ TriggerSpec host m cfg eventType r) := by
  constructor
  · intro fuel r h
    exact trigLoop_spec host fuel m cfg eventType cfg r h
  · intro rank hr
    obtain ⟨r, hrr⟩ := trigLoop_total host hr cfg eventType
      (trigFuel rank cfg) cfg
      (fun l hl => by
        have hle : rank l ≤ (cfg.map rank).foldr max 0 :=
          le_foldr_max (cfg.map rank) (rank l) (List.mem_map.mpr ⟨l, hl, rfl⟩)
        have he : trigFuel rank cfg = (cfg.map rank).foldr max 0 + 1 := rfl
        omega)
    exact ⟨r, hrr, trigLoop_spec host _ m cfg eventType cfg r hrr⟩

/-- Witness for C2 at a concrete input: from `{red}`, `TIMER` fires
`e_tl_red_green` and the configuration becomes `{green}`. -/
theorem c2_trigger_resolution_witness :
    TriggerSpec jsExprEval trafficLightMachine ["red"] "TIMER"
      (["green"], some "e_tl_red_green") :=
  (c2_trigger_resolution jsExprEval trafficLightMachine ["red"] "TIMER").1 5
    (["green"], some "e_tl_red_green") (by decide)

/-! ## Claim C9: termination -/

lemma selfParent_ancLoop_none :
    ∀ (fuel : Nat) (acc : List String),
      ancLoop selfParentDoc fuel (some "a") acc = none := by
  intro fuel
  induction fuel with
  | zero => intro acc; rfl
  | succ f ih =>
    intro acc
    have hp : parentOf selfParentDoc "a" = some "a" := by decide
    have hne : ¬ ("a" : String) = "" := by decide
    simp only [ancLoop, hp, if_neg hne]
    exact ih (acc ++ ["a"])

/-- Counterexample to C9: on a document whose parent links form a (self-)cycle,
`triggerSimulationEvent` does not return — `getAncestors` has no cycle
protection, so the claim's "consequently ... triggerSimulationEvent always
return[s]" fails. -/
theorem c9_counterexample : TriggerDivergesOn selfParentDoc ["a"] "E" := by
  intro host fuel
  simp only [triggerSimulationEventF, trigLoop, findTransitionForEventF,
    getAncestorsF, selfParent_ancLoop_none fuel [], Option.map_none']

/-- C9 amended: `enterNode` does terminate on every document and starting id —
beyond the explicit bound `enterFuel` (one per distinct node id or edge target,
plus the start) the fuelled recursion is constant, which also makes
`initialSimulationState` total; and `triggerSimulationEvent` returns whenever
the `parentNode` relation admits a decreasing rank (acyclic parent links) —
but not in general, see `c9_counterexample`. -/
theorem c9_enter_terminates :
    (∀ (m : MachineDocument) (i : String) (f : Nat), enterFuel m i ≤ f →
      enterNodeF m f [] i = enterNode m i) ∧
    (∀ (m : MachineDocument) (rank : String → Nat), ParentRankOk m rank →
      ∀ (host : HostEval) (cfg : List String) (eventType : String),
        ∃ r, triggerSimulationEventF host (trigFuel rank cfg) m cfg eventType =
          some r) := by
  constructor
  · intro m i f hf
    exact enterNodeF_eq_enterNode m i f hf
  · intro m rank hr host cfg eventType
    exact trigLoop_total host hr cfg eventType (trigFuel rank cfg) cfg
      (fun l hl => by
        have hle : rank l ≤ (cfg.map rank).foldr max 0 :=
          le_foldr_max (cfg.map rank) (rank l) (List.mem_map.mpr ⟨l, hl, rfl⟩)
        have he : trigFuel rank cfg = (cfg.map rank).foldr max 0 + 1 := rfl
        omega)

lemma allRoot_parentRankOk {m : MachineDocument}
    (h : ∀ n ∈ m.nodes, n.parentNode = none) (rank : String → Nat) :
    ParentRankOk m rank := by
  intro c p hp _
  obtain ⟨n, hn, hpn⟩ := Option.bind_eq_some.mp hp
  rw [h n (nodeById_mem hn)] at hpn
  cases hpn

/-- Witness for C9's amended statement at the traffic-light example. -/
theorem c9_enter_terminates_witness :
    enterNodeF trafficLightMachine 20 [] "red" =
        enterNode trafficLightMachine "red" ∧
    ∃ r, triggerSimulationEventF jsExprEval
        (trigFuel (fun _ => 0) ["red"]) trafficLightMachine ["red"] "TIMER" =
        some r :=
  ⟨c9_enter_terminates.1 trafficLightMachine "red" 20 (by decide),
   c9_enter_terminates.2 trafficLightMachine (fun _ => 0)
     (allRoot_parentRankOk (by decide) _) jsExprEval ["red"] "TIMER"⟩

/-! ## Claim C3: the initial configuration holds only atomic/final leaves -/

lemma mem_setAdd {l : List String} {x y : String} :
    y ∈ setAdd l x ↔ y ∈ l ∨ y = x := by
  simp only [setAdd]
  split
  · rename_i hc
    constructor
    · exact Or.inl
    · rintro (h | rfl)
      · exact h
      · simpa using hc
  · simp [List.mem_append]

lemma mem_foldl_setAdd (xs : List String) :
    ∀ (acc : List String) (y : String),
      y ∈ xs.foldl (fun a x => setAdd a x) acc ↔ y ∈ acc ∨ y ∈ xs := by
  induction xs with
  | nil => intro acc y; simp
  | cons x xs ih =>
    intro acc y
    rw [List.foldl_cons, ih]
    rw [mem_setAdd]
    constructor
    · rintro ((h | rfl) | h)
      · exact Or.inl h
      · exact Or.inr (List.mem_cons_self _ _)
      · exact Or.inr (List.mem_cons_of_mem _ h)
    · rintro (h | h)
      · exact Or.inl (Or.inl h)
      · rcases List.mem_cons.mp h with rfl | h
        · exact Or.inl (Or.inr rfl)
        · exact Or.inr h

lemma mem_foldl_union (f : StateNode → List String) :
    ∀ (children : List StateNode) (acc : List String) (y : String),
      y ∈ children.foldl (fun a c => (f c).foldl (fun a x => setAdd a x) a) acc ↔
        y ∈ acc ∨ ∃ c ∈ children, y ∈ f c := by
  intro children
  induction children with
  | nil => intro acc y; simp
  | cons c rest ih =>
    intro acc y
    rw [List.foldl_cons, ih, mem_foldl_setAdd]
    constructor
    · rintro ((h | h) | ⟨c', hc', hy⟩)
      · exact Or.inl h
      · exact Or.inr ⟨c, List.mem_cons_self _ _, h⟩
      · exact Or.inr ⟨c', List.mem_cons_of_mem _ hc', hy⟩
    · rintro (h | ⟨c', hc', hy⟩)
      · exact Or.inl (Or.inl h)
      · rcases List.mem_cons.mp hc' with rfl | h
        · exact Or.inl (Or.inr hy)
        · exact Or.inr ⟨c', h, hy⟩

lemma mem_nodes_of_nonMarkerChildren {m : MachineDocument} {p : Option String}
    {c : StateNode} (h : c ∈ nonMarkerChildren m p) : c ∈ m.nodes :=
  mem_nodes_of_childrenOf (List.mem_filter.mp h).1

/-- The entry invariant: under `EntryWF`, entering any existing node with
enough fuel yields a non-empty set of atomic/final leaves. -/
lemma enterNodeF_entryWF {m : MachineDocument} {rank : String → Nat}
    (hwf : EntryWF m rank) :
    ∀ (fuel : Nat) (i : String) (seen : List String),
      (nodeById m i).isSome = true →
      rank i < fuel →
      (∀ s ∈ seen, rank i < rank s) →
      enterNodeF m fuel seen i ≠ [] ∧
        ∀ x ∈ enterNodeF m fuel seen i, IsEntryLeaf m x := by
  obtain ⟨hnd, hids, hmk, hpar, hcmp⟩ := hwf
  intro fuel
  induction fuel with
  | zero => intro i seen _ h _; exact absurd h (Nat.not_lt_zero _)
  | succ f ih =>
    intro i seen hsome hrk hseen
    obtain ⟨node, hn⟩ := Option.isSome_iff_exists.mp hsome
    have hid : node.id = i := nodeById_id hn
    have hmem : node ∈ m.nodes := nodeById_mem hn
    have hns : seen.contains i = false := by
      cases hsc : seen.contains i
      · rfl
      · exact absurd (hseen i (by simpa using hsc)) (lt_irrefl _)
    have hstep : ∀ t, (nodeById m t).isSome = true → rank t < rank i →
        enterNodeF m f (i :: seen) t ≠ [] ∧
          ∀ x ∈ enterNodeF m f (i :: seen) t, IsEntryLeaf m x := by
      intro t hts htr
      refine ih t (i :: seen) hts (by omega) ?_
      intro s hs
      rcases List.mem_cons.mp hs with rfl | hs
      · exact htr
      · exact lt_trans htr (hseen s hs)
    simp only [enterNodeF, hns, Bool.false_eq_true, if_false, hn]
    by_cases hk : node.data.kind = NodeKind.initial
    · simp only [hk, if_true]
      have hc := hmk node hmem hk
      cases he : (edgesOf m node.id).head? with
      | none => rw [he] at hc; cases hc
      | some e =>
        rw [he] at hc
        simp only [Bool.and_eq_true, Bool.not_eq_true', decide_eq_false_iff_not,
          decide_eq_true_eq] at hc
        obtain ⟨⟨hne, hsome'⟩, hrank⟩ := hc
        simp only [hne, if_false]
        exact hstep e.target hsome' (hid ▸ hrank)
    · simp only [hk, if_false]
      cases hch : (nonMarkerChildren m (some node.id)).isEmpty
      · simp only [hch, Bool.false_eq_true, if_false]
        by_cases hp : node.data.kind = NodeKind.parallel
        · simp only [hp, if_true]
          have hpc := hpar node hmem hp
          have hchild : ∀ c ∈ nonMarkerChildren m (some node.id),
              enterNodeF m f (i :: seen) c.id ≠ [] ∧
                ∀ x ∈ enterNodeF m f (i :: seen) c.id, IsEntryLeaf m x := by
            intro c hc
            exact hstep c.id
              (by rw [nodeById_of_mem_nodup hnd (mem_nodes_of_nonMarkerChildren hc)]; rfl)
              (hid ▸ hpc.2 c hc)
          constructor
          · cases hcl : nonMarkerChildren m (some node.id) with
            | nil => rw [hcl] at hch; cases hch
            | cons c0 rest =>
              have h0 := hchild c0 (by rw [hcl]; exact List.mem_cons_self _ _)
              obtain ⟨y, hy⟩ := List.exists_mem_of_ne_nil _ h0.1
              exact List.ne_nil_of_mem
                ((mem_foldl_union _ (c0 :: rest) [] y).mpr
                  (Or.inr ⟨c0, List.mem_cons_self _ _, hy⟩))
          · intro x hx
            rcases (mem_foldl_union _ _ [] x).mp hx with h | ⟨c, hc, hxc⟩
            · cases h
            · exact (hchild c hc).2 x hxc
        · simp only [hp, if_false]
          have hcc := hcmp node hmem hk hp hch
          cases hfi : findInitialTarget m (some node.id) with
          | some t =>
            rw [hfi] at hcc
            simp only [Bool.and_eq_true, Bool.not_eq_true',
              decide_eq_false_iff_not, decide_eq_true_eq] at hcc
            obtain ⟨⟨hne, hsome'⟩, hrank⟩ := hcc
            simp only [hne, if_false]
            exact hstep t hsome' (hid ▸ hrank)
          | none =>
            rw [hfi] at hcc
            cases hh : (nonMarkerChildren m (some node.id)).head? with
            | none =>
              cases hcl : nonMarkerChildren m (some node.id) with
              | nil => rw [hcl] at hch; cases hch
              | cons c0 rest => rw [hcl] at hh; cases hh
            | some c =>
              rw [hh] at hcc
              simp only [decide_eq_true_eq] at hcc
              have hcm : c ∈ m.nodes :=
                mem_nodes_of_nonMarkerChildren (mem_of_head? hh)
              have hcne : c.id ≠ "" := hids c hcm
              simp only [hcne, if_false]
              exact hstep c.id
                (by rw [nodeById_of_mem_nodup hnd hcm]; rfl)
                (hid ▸ hcc)
      · -- no non-marker children: the node itself is the leaf
        simp only [hch, if_true]
        refine ⟨by simp, ?_⟩
        intro x hx
        obtain rfl : x = node.id := by simpa using hx
        refine ⟨node, hid ▸ hn, ?_, hch⟩
        cases hknd : node.data.kind with
        | atomic => exact Or.inl rfl
        | final => exact Or.inr rfl
        | initial => exact absurd hknd hk
        | parallel =>
          have := (hpar node hmem hknd).1
          rw [this] at hch
          cases hch

/-- Bridge to the total wrapper. -/
lemma enterNode_entryWF {m : MachineDocument} {rank : String → Nat}
    (hwf : EntryWF m rank) (i : String)
    (hsome : (nodeById m i).isSome = true) :
    enterNode m i ≠ [] ∧ ∀ x ∈ enterNode m i, IsEntryLeaf m x := by
  have hF : enterNodeF m (max (enterFuel m i) (rank i + 1)) [] i =
      enterNode m i :=
    enterNodeF_eq_enterNode m i _ (Nat.le_max_left _ _)
  rw [← hF]
  refine enterNodeF_entryWF hwf _ i [] hsome ?_ (by simp)
  have := Nat.le_max_right (enterFuel m i) (rank i + 1)
  omega

lemma findInitialTarget_ok {m : MachineDocument} {rank : String → Nat}
    (hwf : EntryWF m rank) {p : Option String} {t : String}
    (h : findInitialTarget m p = some t) :
    t ≠ "" ∧ (nodeById m t).isSome = true := by
  obtain ⟨hnd, hids, hmk, _, _⟩ := hwf
  simp only [findInitialTarget] at h
  split at h
  · rename_i marker hfind
    have hmmem : marker ∈ m.nodes :=
      mem_nodes_of_childrenOf (List.mem_of_find?_eq_some hfind)
    have hmkind : marker.data.kind = NodeKind.initial := by
      simpa using List.find?_some hfind
    have hc := hmk marker hmmem hmkind
    split at h
    · rename_i e he
      rw [he] at hc
      simp only [Bool.and_eq_true, Bool.not_eq_true', decide_eq_false_iff_not,
        decide_eq_true_eq] at hc
      obtain rfl : e.target = t := by simpa using h
      exact ⟨hc.1.1, hc.1.2⟩
    · obtain ⟨n, hn, rfl⟩ := Option.map_eq_some'.mp h
      have hnm : n ∈ m.nodes :=
        mem_nodes_of_childrenOf (List.mem_of_find?_eq_some hn)
      exact ⟨hids n hnm, by rw [nodeById_of_mem_nodup hnd hnm]; rfl⟩
  · obtain ⟨n, hn, rfl⟩ := Option.map_eq_some'.mp h
    have hnm : n ∈ m.nodes :=
      mem_nodes_of_childrenOf (List.mem_of_find?_eq_some hn)
    exact ⟨hids n hnm, by rw [nodeById_of_mem_nodup hnd hnm]; rfl⟩

/-- C3 amended: with `EntryWF` — which beyond the claim's hypotheses also
requires parallel nodes to have a region and marker edges to resolve — and a
non-marker root, `initialSimulationState` is a non-empty list of existing
atomic/final leaves. -/
theorem c3_initial_configuration (m : MachineDocument) (rank : String → Nat)
    (hwf : EntryWF m rank)
    (hroot : ∃ n ∈ m.nodes, n.parentNode = none ∧
      n.data.kind ≠ NodeKind.initial) :
    initialSimulationState m ≠ [] ∧
      ∀ x ∈ initialSimulationState m, IsEntryLeaf m x := by
  simp only [initialSimulationState]
  cases hfi : findInitialTarget m none with
  | some rt =>
    obtain ⟨hne, hsome⟩ := findInitialTarget_ok hwf hfi
    simp only [hne, if_false]
    exact enterNode_entryWF hwf rt hsome
  | none =>
    have hex : ∃ n ∈ m.nodes,
        (!strTruthy n.parentNode && decide (n.data.kind ≠ NodeKind.initial)) = true := by
      obtain ⟨n, hn, hpn, hk⟩ := hroot
      exact ⟨n, hn, by simp [hpn, strTruthy, hk]⟩
    cases hfind : m.nodes.find?
        (fun n => !strTruthy n.parentNode && decide (n.data.kind ≠ NodeKind.initial)) with
    | none =>
      exfalso
      have := List.find?_isSome.mpr hex
      rw [hfind] at this
      cases this
    | some n2 =>
      have hnm : n2 ∈ m.nodes := List.mem_of_find?_eq_some hfind
      exact enterNode_entryWF hwf n2.id
        (by rw [nodeById_of_mem_nodup hwf.1 hnm]; rfl)

/-- Witness for C3's amended statement: the traffic light's initial
configuration is the non-empty leaf set `{red}`. -/
theorem c3_initial_configuration_witness :
    initialSimulationState trafficLightMachine ≠ [] ∧
      ∀ x ∈ initialSimulationState trafficLightMachine,
        IsEntryLeaf trafficLightMachine x :=
  c3_initial_configuration trafficLightMachine
    (fun i => if i = "tl_init" then 1 else 0)
    (by unfold EntryWF; decide) (by decide)

/-- Counterexample to C3 as stated: `parallelLeafDoc` (one root `parallel`
node with no children) satisfies every hypothesis the claim lists, yet
`initialSimulationState` returns the parallel container itself. -/
theorem c3_counterexample :
    ClaimedWellFormed parallelLeafDoc ∧
      ¬ (initialSimulationState parallelLeafDoc ≠ [] ∧
        ∀ x ∈ initialSimulationState parallelLeafDoc,
          (match nodeById parallelLeafDoc x with
           | some nd => decide (nd.data.kind = NodeKind.atomic) ||
               decide (nd.data.kind = NodeKind.final)
           | none => false) = true) := by
  refine ⟨⟨⟨fun _ => 0, by decide⟩, by decide, by decide,
    ⟨fun _ => 0, by decide, by decide⟩⟩, ?_⟩
  intro h
  have := h.2 "p" (by decide)
  revert this
  decide

/-! ## Claim C5: the checkout example's parallel regions -/

/-- Counterexample to C5 as stated: `initialSimulationState` on the checkout
machine is `{cart}` — the parallel `review` regions are not part of the
*initial* configuration. -/
theorem c5_counterexample :
    initialSimulationState checkoutMachine = ["cart"] ∧
      "review_shipping" ∉ initialSimulationState checkoutMachine ∧
      "review_payment" ∉ initialSimulationState checkoutMachine := by
  refine ⟨by decide, by decide, by decide⟩

/-- C5 amended: entering the `review` parallel node activates the `Shipping`
and `Payment` regions simultaneously — `enterNode` returns both region leaves,
and one `BEGIN_CHECKOUT` step from the initial configuration produces exactly
that two-leaf configuration. -/
theorem c5_parallel_regions :
    enterNode checkoutMachine "review" = ["review_shipping", "review_payment"] ∧
      triggerSimulationEventF jsExprEval 5 checkoutMachine
        (initialSimulationState checkoutMachine) "BEGIN_CHECKOUT" =
        some (["review_shipping", "review_payment"], some "e_cart_review") := by
  refine ⟨by decide, by decide⟩

/-! ## Claim C6: guard evaluation is total and never raises -/

/-- C6.  For every event type: `"1 === 2"` evaluates false, the blank guard
evaluates true, and any non-blank guard whose host evaluation throws (a guard
that does not parse included, modelled by the host returning `none`) evaluates
false — `evaluateGuard` itself is a Lean function into `Bool`, so totality and
non-propagation hold by construction. -/
theorem c6_evaluateGuard (eventType : String) :
    evaluateGuard jsExprEval "1 === 2" eventType = false ∧
    evaluateGuard jsExprEval "" eventType = true ∧
    ∀ guard, strTrim guard ≠ "" → jsExprEval guard eventType = none →
      evaluateGuard jsExprEval guard eventType = false := by
  refine ⟨rfl, rfl, ?_⟩
  intro guard hg hh
  simp only [evaluateGuard, hg, if_false, hh]

/-- Witness for C6: the syntactically broken guard `((` at a concrete event. -/
theorem c6_evaluateGuard_witness :
    evaluateGuard jsExprEval "((" "CLICK" = false :=
  (c6_evaluateGuard "CLICK").2.2 "((" (by decide) rfl

/-! ## Claim C10: an advertised event need not fire -/

/-- C10.  `getAvailableEvents` trims event names, `triggerSimulationEvent`
compares them raw: on a document whose only edge carries the padded event
`" GO "`, the event list contains `"GO"` but triggering `"GO"` leaves the
configuration unchanged with no fired edge. -/
theorem c10_advertised_event_does_not_fire :
    ∃ (m : MachineDocument) (cfg : List String) (eventType : String)
      (fuel : Nat) (evs : List String),
      getAvailableEventsF fuel m cfg = some evs ∧ eventType ∈ evs ∧
      triggerSimulationEventF jsExprEval fuel m cfg eventType =
        some (cfg, none) :=
  ⟨paddedEventDoc, ["a"], "GO", 5, ["GO"], by decide, by decide, by decide⟩

/-! ## Decimal rendering is injective

`assignKeys` disambiguates sibling keys with a decimal suffix, so the claimed
key distinctness rests on `Nat.repr` being injective; core provides no such
fact, hence this small development of `Nat.toDigitsCore`. -/

lemma digitChar_toNat {k : Nat} (hk : k < 10) :
    (Nat.digitChar k).toNat = 48 + k := by
  interval_cases k <;> decide

lemma toDigitsCore_append (b : Nat) :
    ∀ (fuel n : Nat) (ds : List Char),
      Nat.toDigitsCore b fuel n ds = Nat.toDigitsCore b fuel n [] ++ ds := by
  intro fuel
  induction fuel with
  | zero => intro n ds; rfl
  | succ f ih =>
    intro n ds
    simp only [Nat.toDigitsCore]
    by_cases h : n / b = 0
    · simp [h]
    · simp only [h, if_false]
      rw [ih (n / b) (Nat.digitChar (n % b) :: ds),
        ih (n / b) [Nat.digitChar (n % b)], List.append_assoc]
      rfl

lemma toDigitsCore_fuel (b : Nat) (hb : 2 ≤ b) :
    ∀ (n f : Nat), n < f →
      Nat.toDigitsCore b f n [] = Nat.toDigitsCore b (n + 1) n [] := by
  intro n
  induction n using Nat.strong_induction_on with
  | _ n ih =>
    intro f hf
    cases f with
    | zero => exact absurd hf (Nat.not_lt_zero _)
    | succ f' =>
      simp only [Nat.toDigitsCore]
      by_cases h : n / b = 0
      · simp [h]
      · simp only [h, if_false]
        have hdiv : n / b < n := by
          have hb0 : 0 < b := by omega
          have : b ≤ n := by
            by_contra hcon
            exact h (Nat.div_eq_of_lt (by omega))
          exact Nat.div_lt_self (by omega) (by omega)
        rw [toDigitsCore_append b f' (n / b),
          toDigitsCore_append b n (n / b)]
        rw [ih (n / b) hdiv f' (by omega), ih (n / b) hdiv n (by omega)]

lemma charsVal10_append_one (cs : List Char) (c : Char) :
    charsVal10 (cs ++ [c]) = charsVal10 cs * 10 + (c.toNat - 48) := by
  simp [charsVal10, List.foldl_append]

lemma charsVal10_toDigits : ∀ n : Nat, charsVal10 (Nat.toDigits 10 n) = n := by
  intro n
  induction n using Nat.strong_induction_on with
  | _ n ih =>
    simp only [Nat.toDigits, Nat.toDigitsCore]
    by_cases h : n / 10 = 0
    · have hn : n < 10 := by omega
      have hmod : n % 10 = n := Nat.mod_eq_of_lt hn
      simp [h, charsVal10, digitChar_toNat (hmod ▸ Nat.mod_lt n (by omega)), hmod]
    · simp only [h, if_false]
      have hdiv : n / 10 < n := Nat.div_lt_self (by omega) (by omega)
      rw [toDigitsCore_append 10 n (n / 10),
        toDigitsCore_fuel 10 (by omega) (n / 10) n (by omega)]
      rw [charsVal10_append_one]
      have := ih (n / 10) hdiv
      simp only [Nat.toDigits] at this
      rw [this, digitChar_toNat (Nat.mod_lt n (by omega))]
      omega

lemma natRepr_injective {j k : Nat} (h : Nat.repr j = Nat.repr k) : j = k := by
  have hdata := congrArg String.data h
  simp only [Nat.repr, List.asString] at hdata
  have : Nat.toDigits 10 j = Nat.toDigits 10 k := hdata
  calc j = charsVal10 (Nat.toDigits 10 j) := (charsVal10_toDigits j).symm
    _ = charsVal10 (Nat.toDigits 10 k) := by rw [this]
    _ = k := charsVal10_toDigits k

lemma toDigits_ne_nil (n : Nat) : Nat.toDigits 10 n ≠ [] := by
  simp only [Nat.toDigits, Nat.toDigitsCore]
  by_cases h : n / 10 = 0
  · simp [h]
  · simp only [h, if_false]
    rw [toDigitsCore_append]
    exact fun hc => by simpa using congrArg List.length hc

lemma natRepr_length_pos (n : Nat) : 0 < (Nat.repr n).length := by
  simp only [Nat.repr, List.asString, String.length]
  cases hd : Nat.toDigits 10 n with
  | nil => exact absurd hd (toDigits_ne_nil n)
  | cons c cs => simp

/-! ## Claim C8: sibling key assignment -/

lemma recGet_recSet_self {α : Type} (l : List (String × α)) (k : String) (v : α) :
    recGet (recSet l k v) k = some v := by
  induction l with
  | nil => simp [recSet, recGet]
  | cons p rest ih =>
    obtain ⟨k', v'⟩ := p
    by_cases h : k' = k
    · simp [recSet, recGet, h]
    · simp only [recSet, h, if_false]
      simpa [recGet, List.find?_cons, h] using ih

lemma recGet_recSet_ne {α : Type} (l : List (String × α)) (k k' : String)
    (v : α) (h : k ≠ k') : recGet (recSet l k v) k' = recGet l k' := by
  induction l with
  | nil => simp [recSet, recGet, h]
  | cons p rest ih =>
    obtain ⟨pk, pv⟩ := p
    by_cases hp : pk = k
    · subst hp
      simp [recSet, recGet, List.find?_cons, h]
    · simp only [recSet, hp, if_false]
      by_cases hp' : pk = k'
      · simp [recGet, List.find?_cons, hp']
      · simpa [recGet, List.find?_cons, hp'] using ih

lemma recGet_append {α : Type} (l1 l2 : List (String × α)) (k : String) :
    recGet (l1 ++ l2) k =
      match recGet l1 k with
      | some v => some v
      | none => recGet l2 k := by
  induction l1 with
  | nil => simp [recGet]
  | cons p rest ih =>
    obtain ⟨pk, pv⟩ := p
    by_cases h : pk = k
    · simp [recGet, List.find?_cons, h]
    · simpa [recGet, List.find?_cons, h] using ih

lemma recSet_append_of_none {α : Type} {l : List (String × α)} {k : String}
    (v : α) (h : recGet l k = none) : recSet l k v = l ++ [(k, v)] := by
  induction l with
  | nil => rfl
  | cons p rest ih =>
    obtain ⟨pk, pv⟩ := p
    by_cases hp : pk = k
    · simp [recGet, List.find?_cons, hp] at h
    · have h' : recGet rest k = none := by
        simpa [recGet, List.find?_cons, hp] using h
      simp [recSet, hp, ih h']

/-- The source's two-pass loop equals the claim's description: the `idToKey`
object maps each child id to its occurrence key (ids assumed unique, as the
data model requires). -/
lemma assignKeysAux_eq :
    ∀ (children : List StateNode) (counts : List (String × Nat))
      (acc : List (String × String)),
      (∀ c ∈ children, recGet acc c.id = none) →
      (children.map (·.id)).Nodup →
      assignKeysAux children counts acc =
        acc ++ (keyedChildren children counts).map (fun p => (p.1.id, p.2)) := by
  intro children
  induction children with
  | nil => intro counts acc _ _; simp [assignKeysAux, keyedChildren]
  | cons c rest ih =>
    intro counts acc hacc hnd
    simp only [List.map_cons, List.nodup_cons] at hnd
    simp only [assignKeysAux, keyedChildren]
    rw [recSet_append_of_none _ (hacc c (List.mem_cons_self _ _))]
    rw [ih (recSet counts (slugify c.data.label)
        ((recGet counts (slugify c.data.label)).getD 0 + 1))
        (acc ++ [(c.id, occKey (slugify c.data.label)
          ((recGet counts (slugify c.data.label)).getD 0))]) ?_ hnd.2]
    · simp
    · intro x hx
      have h1 : recGet acc x.id = none := hacc x (List.mem_cons_of_mem _ hx)
      have h2 : ¬ c.id = x.id :=
        fun hEq => hnd.1 (List.mem_map.mpr ⟨x, hx, hEq.symm⟩)
      rw [recGet_append, h1]
      simp [recGet, List.find?_cons, h2]

lemma string_append_cancel {s t u : String} (h : s ++ t = s ++ u) : t = u := by
  have := congrArg String.data h
  simp only [String.data_append] at this
  exact String.ext (List.append_cancel_left this)

lemma occKey_injective (base : String) {j k : Nat} (hjk : j ≠ k) :
    occKey base j ≠ occKey base k := by
  intro h
  simp only [occKey] at h
  by_cases hj : j = 0 <;> by_cases hk : k = 0
  · exact hjk (hj.trans hk.symm)
  · rw [if_pos hj, if_neg hk] at h
    have hlen := congrArg String.length h
    rw [String.length_append, String.length_append] at hlen
    have hp := natRepr_length_pos (k + 1)
    have hu : ("_" : String).length = 1 := rfl
    omega
  · rw [if_neg hj, if_pos hk] at h
    have hlen := congrArg String.length h
    rw [String.length_append, String.length_append] at hlen
    have hp := natRepr_length_pos (j + 1)
    have hu : ("_" : String).length = 1 := rfl
    omega
  · rw [if_neg hj, if_neg hk, String.append_assoc, String.append_assoc] at h
    have := string_append_cancel h
    have := string_append_cancel this
    exact hjk (by have := natRepr_injective this; omega)

/-- Any same-base entry later in the walk carries an occurrence index at least
the current count for that base. -/
lemma keyedChildren_base_ge (base : String) :
    ∀ (children : List StateNode) (counts : List (String × Nat))
      (c' : StateNode) (key' : String),
      (c', key') ∈ keyedChildren children counts →
      slugify c'.data.label = base →
      ∃ k', key' = occKey base k' ∧ (recGet counts base).getD 0 ≤ k' := by
  intro children
  induction children with
  | nil => intro counts c' key' h; cases h
  | cons c rest ih =>
    intro counts c' key' h hbase
    simp only [keyedChildren, List.mem_cons] at h
    rcases h with h | h
    · injection h with h1 h2
      subst h1
      subst h2
      rw [hbase]
      exact ⟨_, rfl, Nat.le_refl _⟩
    · by_cases hcb : slugify c.data.label = base
      · obtain ⟨k', hk', hge⟩ := ih _ c' key' h hbase
        refine ⟨k', hk', ?_⟩
        rw [hcb] at hge
        rw [recGet_recSet_self] at hge
        simp only [Option.getD_some] at hge
        omega
      · obtain ⟨k', hk', hge⟩ := ih _ c' key' h hbase
        refine ⟨k', hk', ?_⟩
        rwa [recGet_recSet_ne _ _ _ _ hcb] at hge

/-- Same-base siblings receive pairwise distinct keys. -/
lemma keyedChildren_pairwise :
    ∀ (children : List StateNode) (counts : List (String × Nat)),
      List.Pairwise
        (fun p q => slugify p.1.data.label = slugify q.1.data.label →
          p.2 ≠ q.2)
        (keyedChildren children counts) := by
  intro children
  induction children with
  | nil => intro counts; exact List.Pairwise.nil
  | cons c rest ih =>
    intro counts
    simp only [keyedChildren]
    refine List.Pairwise.cons ?_ (ih _)
    intro q hq hbase
    obtain ⟨k', hk', hge⟩ :=
      keyedChildren_base_ge (slugify c.data.label) rest _ q.1 q.2
        (by simpa using hq) hbase.symm
    rw [recGet_recSet_self] at hge
    simp only [Option.getD_some] at hge
    rw [hk']
    exact occKey_injective (slugify c.data.label) (by omega)

/-- C8 amended: each non-marker child's exported key is `slugify(label)` for
the first occurrence of a base and `base_k` for the k-th; siblings sharing a
base therefore get pairwise distinct keys — but distinct bases can still
collide (see `c8_counterexample`), so full sibling-key distinctness fails. -/
theorem c8_key_assignment (children : List StateNode)
    (hnd : (children.map (·.id)).Nodup) :
    assignKeys children =
      (keyedChildren children []).map (fun p => (p.1.id, p.2)) ∧
    List.Pairwise
      (fun p q => slugify p.1.data.label = slugify q.1.data.label → p.2 ≠ q.2)
      (keyedChildren children []) :=
  ⟨by simpa using assignKeysAux_eq children [] [] (fun _ _ => rfl) hnd,
   keyedChildren_pairwise children []⟩

/-- Witness for C8's amended statement on the colliding document. -/
theorem c8_key_assignment_witness :
    assignKeys keyClashDoc.nodes =
      (keyedChildren keyClashDoc.nodes []).map (fun p => (p.1.id, p.2)) ∧
    List.Pairwise
      (fun p q => slugify p.1.data.label = slugify q.1.data.label → p.2 ≠ q.2)
      (keyedChildren keyClashDoc.nodes []) :=
  c8_key_assignment keyClashDoc.nodes (by decide)

/-- Counterexample to C8 as stated: siblings labelled `a`, `a`, `a 2` make the
second `a` and the `a 2` both key `a_2` — distinct siblings with equal keys,
the later entry overwriting the earlier in the exported `states` object. -/
theorem c8_counterexample :
    slugify "a 2" = "a_2" ∧
    assignKeys keyClashDoc.nodes =
      [("n1", "a"), ("n2", "a_2"), ("n3", "a_2")] ∧
    recGet (assignKeys keyClashDoc.nodes) "n2" =
      recGet (assignKeys keyClashDoc.nodes) "n3" := by
  refine ⟨by decide, by decide, by decide⟩

/-! ## Claim C4: the exported nested `initial` field -/

lemma mem_recSet {α : Type} :
    ∀ {l : List (String × α)} {k : String} {v : α} {p : String × α},
      p ∈ recSet l k v → p ∈ l ∨ p = (k, v) := by
  intro l
  induction l with
  | nil => intro k v p h; simpa [recSet] using h
  | cons q rest ih =>
    intro k v p h
    obtain ⟨qk, qv⟩ := q
    by_cases hq : qk = k
    · subst hq
      simp only [recSet, if_pos rfl] at h
      rcases List.mem_cons.mp h with rfl | h
      · exact Or.inr rfl
      · exact Or.inl (List.mem_cons_of_mem _ h)
    · simp only [recSet, hq, if_false] at h
      rcases List.mem_cons.mp h with rfl | h
      · exact Or.inl (List.mem_cons_self _ _)
      · rcases ih h with h | h
        · exact Or.inl (List.mem_cons_of_mem _ h)
        · exact Or.inr h

lemma foldBuild_mem (m : MachineDocument) (f : Nat)
    (idToKey : List (String × String)) :
    ∀ (children : List StateNode) (acc states : List (String × XStateState)),
      children.foldlM
        (fun (states : List (String × XStateState)) child =>
          match buildStatesForParentF m f (some child.id) with
          | some nested =>
            some (recSet states ((recGet idToKey child.id).getD "")
              (buildStateConfig m child nested))
          | none => none)
        acc = some states →
      ∀ p ∈ states, p ∈ acc ∨ ∃ child ∈ children, ∃ nested,
        buildStatesForParentF m f (some child.id) = some nested ∧
        p.2 = buildStateConfig m child nested := by
  intro children
  induction children with
  | nil =>
    intro acc states h p hp
    obtain rfl : acc = states := by simpa using h
    exact Or.inl hp
  | cons child rest ih =>
    intro acc states h p hp
    rw [List.foldlM_cons] at h
    cases hb : buildStatesForParentF m f (some child.id) with
    | none => rw [hb] at h; cases h
    | some nested =>
      rw [hb] at h
      simp only [Option.some_bind] at h
      rcases ih _ states h p hp with hacc | ⟨c, hc, n, hn, hcfg⟩
      · rcases mem_recSet hacc with hacc | rfl
        · exact Or.inl hacc
        · exact Or.inr ⟨child, List.mem_cons_self _ _, nested, hb, rfl⟩
      · exact Or.inr ⟨c, List.mem_cons_of_mem _ hc, n, hn, hcfg⟩

lemma buildStateConfig_id (m : MachineDocument) (child : StateNode)
    (nested : List (String × XStateState) × List (String × String)) :
    (buildStateConfig m child nested).id = some child.id := rfl

lemma buildStateConfig_initial_of_none {m : MachineDocument}
    {child : StateNode}
    {nested : List (String × XStateState) × List (String × String)}
    (h : firstInitialTarget m (some child.id) = none) :
    (buildStateConfig m child nested).initial = none := by
  simp only [buildStateConfig, h, XStateState.initial]
  exact ite_self none

lemma buildStateConfig_initial_of_parallel {m : MachineDocument}
    {child : StateNode}
    {nested : List (String × XStateState) × List (String × String)}
    (h : child.data.kind = NodeKind.parallel) :
    (buildStateConfig m child nested).initial = none := by
  simp [buildStateConfig, h, XStateState.initial]

lemma buildStateConfig_initial_of_some {m : MachineDocument}
    {child : StateNode}
    {nested : List (String × XStateState) × List (String × String)}
    {k : String} (h : (buildStateConfig m child nested).initial = some k) :
    ∃ t, firstInitialTarget m (some child.id) = some t ∧
      recGet nested.2 t = some k := by
  simp only [buildStateConfig, XStateState.initial] at h
  by_cases hpar : child.data.kind = NodeKind.parallel
  · simp [hpar] at h
  · have htype : (if child.data.kind = NodeKind.final then some "final"
        else if child.data.kind = NodeKind.parallel then some "parallel"
        else none) ≠ some "parallel" := by
      by_cases hf : child.data.kind = NodeKind.final <;> simp [hf, hpar]
    rw [if_pos htype] at h
    cases hfi : firstInitialTarget m (some child.id) with
    | none => rw [hfi] at h; cases h
    | some t =>
      rw [hfi] at h
      have h' : (if t = "" then none
          else match recGet nested.2 t with
            | some k => if k = "" then (none : Option String) else some k
            | none => none) = some k := h
      by_cases ht : t = ""
      · rw [if_pos ht] at h'; cases h'
      · rw [if_neg ht] at h'
        cases hg : recGet nested.2 t with
        | none => rw [hg] at h'; cases h'
        | some k' =>
          rw [hg] at h'
          have h'' : (if k' = "" then (none : Option String) else some k') =
              some k := h'
          by_cases hk' : k' = ""
          · rw [if_pos hk'] at h''; cases h''
          · rw [if_neg hk'] at h''
            obtain rfl : k' = k := Option.some_inj.mp h''
            exact ⟨t, rfl, hg⟩

lemma findInitialTarget_of_firstInitialTarget {m : MachineDocument}
    {p : Option String} {t : String}
    (h : firstInitialTarget m p = some t) : findInitialTarget m p = some t := by
  simp only [firstInitialTarget] at h
  simp only [findInitialTarget]
  split at h
  · obtain ⟨e, he, rfl⟩ := Option.map_eq_some'.mp h
    simp [he]
  · cases h

/-- C4 amended: every entry of the exported `states` object is some non-marker
child's config; its `initial` field is set only via the marker rule — to the
key of the child's initial marker's first edge target, which is exactly the
child the entry resolver picks — and is omitted whenever the child has no
marker (no first-declared-child fallback at nested levels) and always for
parallel children. -/
theorem c4_exported_initial (m : MachineDocument) (fuel : Nat)
    (parentId : Option String) (states : List (String × XStateState))
    (idToKey : List (String × String))
    (h : buildStatesForParentF m fuel parentId = some (states, idToKey))
    (key : String) (cfg : XStateState) (hmem : (key, cfg) ∈ states) :
    ∃ child, child ∈ nonMarkerChildren m parentId ∧
      cfg.id = some child.id ∧
      (∀ k, cfg.initial = some k →
        ∃ t, firstInitialTarget m (some child.id) = some t ∧
          findInitialTarget m (some child.id) = some t ∧
          (∃ nested, buildStatesForParentF m (fuel - 1) (some child.id) =
              some nested ∧ recGet nested.2 t = some k)) ∧
      (firstInitialTarget m (some child.id) = none → cfg.initial = none) ∧
      (child.data.kind = NodeKind.parallel → cfg.initial = none) := by
  cases fuel with
  | zero => cases h
  | succ f =>
    simp only [buildStatesForParentF] at h
    cases hfold : (nonMarkerChildren m parentId).foldlM
        (fun (states : List (String × XStateState)) child =>
          match buildStatesForParentF m f (some child.id) with
          | some nested =>
            some (recSet states
              ((recGet (assignKeys (nonMarkerChildren m parentId)) child.id).getD "")
              (buildStateConfig m child nested))
          | none => none)
        [] with
    | none => rw [hfold] at h; cases h
    | some sts =>
      rw [hfold] at h
      have hinj : sts = states ∧
          assignKeys (nonMarkerChildren m parentId) = idToKey := by
        have h' : some ((sts, assignKeys (nonMarkerChildren m parentId)) :
            List (String × XStateState) × List (String × String)) =
            some (states, idToKey) := h
        have := Option.some_inj.mp h'
        exact ⟨congrArg Prod.fst this, congrArg Prod.snd this⟩
      obtain ⟨rfl, _⟩ := hinj
      rcases foldBuild_mem m f _ (nonMarkerChildren m parentId) [] sts hfold
          (key, cfg) hmem with hacc | ⟨child, hchild, nested, hn, hcfg⟩
      · cases hacc
      · have hcfg' : cfg = buildStateConfig m child nested := hcfg
        refine ⟨child, hchild, ?_, ?_, ?_, ?_⟩
        · rw [hcfg']; rfl
        · intro k hk
          rw [hcfg'] at hk
          obtain ⟨t, hft, hrec⟩ := buildStateConfig_initial_of_some hk
          exact ⟨t, hft, findInitialTarget_of_firstInitialTarget hft,
            nested, by simpa using hn, hrec⟩
        · intro hno
          rw [hcfg']
          exact buildStateConfig_initial_of_none hno
        · intro hpar
          rw [hcfg']
          exact buildStateConfig_initial_of_parallel hpar

/-- Witness for C4's amended statement at `markerDoc`'s `p` entry. -/
theorem c4_exported_initial_witness :
    ∃ child, child ∈ nonMarkerChildren markerDoc none ∧
      markerPCfg.id = some child.id ∧
      (∀ k, markerPCfg.initial = some k →
        ∃ t, firstInitialTarget markerDoc (some child.id) = some t ∧
          findInitialTarget markerDoc (some child.id) = some t ∧
          (∃ nested, buildStatesForParentF markerDoc (3 - 1) (some child.id) =
              some nested ∧ recGet nested.2 t = some k)) ∧
      (firstInitialTarget markerDoc (some child.id) = none →
        markerPCfg.initial = none) ∧
      (child.data.kind = NodeKind.parallel → markerPCfg.initial = none) :=
  c4_exported_initial markerDoc 3 none markerExport.1 markerExport.2 rfl
    "p" markerPCfg
    (List.mem_of_find?_eq_some
      (by rfl : markerExport.1.find? (fun q => q.1 = "p") = some ("p", markerPCfg)))

/-- Counterexample to C4 as stated: the entry resolver picks `a` for the
marker-less compound node `p` (first-declared fallback), but the export emits
no `initial` field for `p` at all — the fallback does not apply in export at
nested levels. -/
theorem c4_counterexample :
    findInitialTarget noMarkerDoc (some "p") = some "a" ∧
    buildStatesForParentF noMarkerDoc 3 none = some noMarkerExport ∧
    recGet noMarkerExport.1 "p" = some noMarkerPCfg ∧
    noMarkerPCfg.initial = none ∧
    recGet ((buildStatesForParentF noMarkerDoc 2 (some "p")).getD ([], [])).2
      "a" = some "a" :=
  ⟨by decide, rfl, rfl, rfl, by decide⟩

/-! ## Claim C1: export-then-import round-trips through the embedded document -/

lemma buildRootStateF_meta {fuel : Nat} {m : MachineDocument} {root : XStateState}
    (h : buildRootStateF fuel m = some root) :
    root.meta = some (XMeta.mk none none none (some m)) := by
  simp only [buildRootStateF] at h
  split at h
  · cases h
  · obtain rfl := Option.some_inj.mp h
    rfl

/-- C1 amended: whenever the export builder returns (the parent links are a
forest) and the document's `machineId` is non-empty, importing the exported
tree takes the embedded-metadata path and returns `normalizeImportedMachine`
of the original, which preserves the machine id, every node's id and kind, and
every edge's id, source, target, event, guard and actions.  (With an empty
`machineId` the `|| 'importedMachine'` fallback breaks the round-trip, see
`c1_counterexample`.) -/
theorem c1_roundtrip (m : MachineDocument) (fuel : Nat) (root : XStateState)
    (hexp : buildRootStateF fuel m = some root) (hid : m.machineId ≠ "")
    (dateTok : String) :
    importMachineFromXState (some root) dateTok =
      Except.ok (normalizeImportedMachine m) ∧
    (normalizeImportedMachine m).machineId = m.machineId ∧
    (normalizeImportedMachine m).nodes.map (fun n => (n.id, n.data.kind)) =
      m.nodes.map (fun n => (n.id, n.data.kind)) ∧
    (normalizeImportedMachine m).edges.map
        (fun e => (e.id, e.source, e.target, e.data.event, e.data.guard,
          e.data.actions)) =
      m.edges.map
        (fun e => (e.id, e.source, e.target, e.data.event, e.data.guard,
          e.data.actions)) := by
  refine ⟨?_, ?_, ?_, ?_⟩
  · simp only [importMachineFromXState, buildRootStateF_meta hexp,
      Option.some_bind, XMeta.fluxState]
  · simp only [normalizeImportedMachine, strOrElse, hid, if_false]
  · show List.map _ (List.map _ m.nodes) = _
    rw [List.map_map]
    rfl
  · show List.map _ (List.map _ m.edges) = _
    rw [List.map_map]
    rfl

/-- Witness for C1's amended statement at the traffic-light example. -/
theorem c1_roundtrip_witness :
    importMachineFromXState (some trafficRoot) "d" =
      Except.ok (normalizeImportedMachine trafficLightMachine) ∧
    (normalizeImportedMachine trafficLightMachine).machineId =
      trafficLightMachine.machineId ∧
    (normalizeImportedMachine trafficLightMachine).nodes.map
        (fun n => (n.id, n.data.kind)) =
      trafficLightMachine.nodes.map (fun n => (n.id, n.data.kind)) ∧
    (normalizeImportedMachine trafficLightMachine).edges.map
        (fun e => (e.id, e.source, e.target, e.data.event, e.data.guard,
          e.data.actions)) =
      trafficLightMachine.edges.map
        (fun e => (e.id, e.source, e.target, e.data.event, e.data.guard,
          e.data.actions)) :=
  c1_roundtrip trafficLightMachine 3 trafficRoot rfl (by decide) "d"

/-- Counterexample to C1 as stated: a document whose `machineId` is the empty
string round-trips to `machineId = "importedMachine"` — the normalization's
`machine.machineId || 'importedMachine'` breaks "same machineId" on this
input. -/
theorem c1_counterexample :
    emptyIdDoc.machineId = "" ∧
    buildRootStateF 3 emptyIdDoc = some emptyIdRoot ∧
    importMachineFromXState (some emptyIdRoot) "d" =
      Except.ok (normalizeImportedMachine emptyIdDoc) ∧
    (normalizeImportedMachine emptyIdDoc).machineId = "importedMachine" :=
  ⟨rfl, rfl, rfl, rfl⟩

/-! ## Claim C7: import fails only on unparseable input -/

lemma jMemberOpt_isOk (v : Option JValue) (k : String) :
    ∃ r, jMemberOpt v k = Except.ok r := by
  cases v with
  | none => exact ⟨none, rfl⟩
  | some jv => cases jv <;> exact ⟨_, rfl⟩

lemma walkStatesJF_falsy (dateTok : String) (f : Nat) (states : Option JValue)
    (parentId : Option String) (parentPath : String) (st : ImpState)
    (h : jTruthy states = false) :
    walkStatesJF dateTok (f + 1) states parentId parentPath st =
      some (Except.ok st) := by
  simp [walkStatesJF, h]

lemma walkTransitionsJF_falsy (dateTok : String) (idSet : List String) (f : Nat)
    (states : Option JValue) (parentPath : String) (st : ImpState)
    (h : jTruthy states = false) :
    walkTransitionsJF dateTok idSet (f + 1) states parentPath st =
      some (Except.ok st) := by
  simp [walkTransitionsJF, h]

lemma createInitialMarkerJ_emptyPaths (dateTok : String) (parentId : Option String)
    (ik : JValue) (st : ImpState) (h : st.pathToId = []) :
    createInitialMarkerJ dateTok parentId "" ik st = st := by
  cases ik <;> simp [createInitialMarkerJ, createInitialMarker, h, recGet]

/-- C7.  The import's actual error behaviour: a JSON parse failure raises (the
`SyntaxError` propagates) and nothing is returned; there is no validation of
identifying fields — every parsed object whose `states` collection is falsy
and whose embedded metadata fails the `isMachineDocument` shape check imports
successfully, as a document with no nodes and no edges, rather than raising;
and a successful parse can still throw a `TypeError` — a `null` root, a
`null` state config, a `null` transition entry and a truthy non-string
transition target each raise after `JSON.parse` succeeded. -/
theorem c7_import_all_or_nothing :
    (∀ fuel dateTok, importMachineFromXStateJ fuel none dateTok =
      some (Except.error "SyntaxError: the input is not parseable as JSON")) ∧
    (∀ fuel fs dateTok, jTruthy (recGet fs "states") = false →
      (∀ emb, jMemberOpt (recGet fs "meta") "fluxState" = Except.ok emb →
        isMachineDocumentJ emb = false) →
      ∃ doc, importMachineFromXStateJ (fuel + 1) (some (.obj fs)) dateTok =
          some (Except.ok doc) ∧ doc.nodes = [] ∧ doc.edges = []) ∧
    importMachineFromXStateJ 1 (some .null) "d" =
      some (Except.error
        "TypeError: cannot read properties of null (reading meta)") ∧
    importMachineFromXStateJ 2
        (some (.obj [("states", .obj [("a", .null)])])) "d" =
      some (Except.error
        "TypeError: cannot read properties of null (reading id)") ∧
    importMachineFromXStateJ 2
        (some (.obj [("states",
          .obj [("a", .obj [("on", .obj [("E", .null)])])])])) "d" =
      some (Except.error
        "TypeError: cannot read properties of null (reading target)") ∧
    importMachineFromXStateJ 2
        (some (.obj [("states",
          .obj [("a", .obj [("on",
            .obj [("E", .obj [("target", .num 1)])])])])])) "d" =
      some (Except.error "TypeError: target.startsWith is not a function") := by
  refine ⟨fun fuel dateTok => rfl, ?_, rfl, rfl, rfl, rfl⟩
  intro fuel fs dateTok h1 h2
  obtain ⟨emb, hemb⟩ := jMemberOpt_isOk (recGet fs "meta") "fluxState"
  have hfalse := h2 emb hemb
  refine ⟨normalizeImportedMachine
    ⟨1, jStrOr (recGet fs "id") "importedMachine", [], [], ⟨0, 0, 1⟩⟩, ?_, rfl, rfl⟩
  have hws := walkStatesJF_falsy dateTok fuel (recGet fs "states") none ""
    ⟨[], [], [], [], 0⟩ h1
  have hwt := walkTransitionsJF_falsy dateTok [] fuel (recGet fs "states") ""
    ⟨[], [], [], [], 0⟩ h1
  simp only [importMachineFromXStateJ, jMember, hemb, hfalse, Bool.false_eq_true,
    if_false, hws, List.map_nil]
  cases hini : recGet fs "initial" with
  | none => simp [hwt]
  | some ik =>
    simp [hwt, createInitialMarkerJ_emptyPaths]

/-- Witness for C7's amended statement at the parsed empty object `{}`: no
identifying fields, no rejection, an empty document. -/
theorem c7_import_all_or_nothing_witness :
    ∃ doc, importMachineFromXStateJ 1 (some (.obj [])) "d" =
        some (Except.ok doc) ∧ doc.nodes = [] ∧ doc.edges = [] :=
  c7_import_all_or_nothing.2.1 0 [] "d" (by decide)
    (fun emb h => by
      have h' : Except.ok (none : Option JValue) = Except.ok emb := h
      cases h'
      rfl)

/-- Counterexample to C7 as stated: `JSON.parse("{}")` succeeds, the payload
lacks every identifying field, yet the import raises nothing — it returns the
near-empty document. -/
theorem c7_counterexample :
    importMachineFromXStateJ 1 (some (.obj [])) "d" =
      some (Except.ok
        (⟨1, "importedMachine", [], [], ⟨0, 0, 1⟩⟩ : MachineDocument)) ∧
    ¬ ∃ e, importMachineFromXStateJ 1 (some (.obj [])) "d" =
        some (Except.error e) := by
  refine ⟨rfl, ?_⟩
  rintro ⟨e, he⟩
  have h1 : importMachineFromXStateJ 1 (some (.obj [])) "d" =
      some (Except.ok
        (⟨1, "importedMachine", [], [], ⟨0, 0, 1⟩⟩ : MachineDocument)) := rfl
  rw [h1] at he
  simp at he

end FluxState
